import Mathlib

/-
Verification of the RefSeq CDS/GFF download-and-organize utility
(src/download_refseq_cds_gff.py) against its specification.

The script is glue code around an external tool and the filesystem, so we
embed it over an explicit filesystem state:
  * `FS` models the filesystem as a finite map from file paths to contents
    (an association list kept duplicate-free at each insertion) plus the set
    of existing directories.
  * external effects (the subprocess invocations of the NCBI datasets tool)
    are modelled by an environment `Env` giving each invocation's result, and
    every invocation performed is recorded in an event trace.
  * the bytes of a downloaded zip archive are interpreted by an `Archive`
    value: either a list of entries (relative path + content) or `corrupt`,
    which models `zipfile.ZipFile` raising on open.
  * Python exceptions that the script does not catch are modelled with
    `Except` / explicit outcome flags.
`json.loads` (standard library, outside this repository) is modelled by the
`jsonParse` field of `ToolStdout`: the parse result of the raw stdout text,
`none` when `json.loads` would raise `JSONDecodeError`.
-/

namespace RefSeqDL

/-- A filesystem path, as its list of components. -/
abbrev FPath := List String

/-- Filesystem state: files (path -> content, duplicate-free by construction
of the operations below) and existing directories. -/
structure FS where
  files : List (FPath × String)
  dirs : List FPath
deriving DecidableEq

def FS.fileExists (fs : FS) (p : FPath) : Bool :=
  fs.files.any (fun e => e.1 == p)

def FS.lookupFile (fs : FS) (p : FPath) : Option String :=
  (fs.files.find? (fun e => e.1 == p)).map (fun e => e.2)

/-- Writing a file: any previous file at that path is replaced. -/
def FS.insertFile (fs : FS) (p : FPath) (c : String) : FS :=
  { fs with files := fs.files.filter (fun e => !(e.1 == p)) ++ [(p, c)] }

def FS.removeFile (fs : FS) (p : FPath) : FS :=
  { fs with files := fs.files.filter (fun e => !(e.1 == p)) }

def FS.mkdir (fs : FS) (p : FPath) : FS :=
  if fs.dirs.contains p then fs else { fs with dirs := fs.dirs ++ [p] }

/-- `p` lies strictly below directory `d`. -/
def isUnder (d p : FPath) : Bool :=
  decide (d <+: p) && decide (d.length < p.length)

/-- shutil.rmtree: delete the directory `d` and everything below it. -/
def FS.rmtree (fs : FS) (d : FPath) : FS :=
  { files := fs.files.filter (fun e => !(isUnder d e.1)),
    dirs := fs.dirs.filter (fun q => !(q == d) && !(isUnder d q)) }

/-- shutil.move: relocate the file at `src` to `dst`, silently overwriting
any existing file at `dst` (the behaviour of `shutil.move` when the
destination names a file path). -/
def FS.move (fs : FS) (src dst : FPath) : FS :=
  let c := (fs.lookupFile src).getD ""
  (fs.removeFile src).insertFile dst c

/-- The list of existing file paths. -/
def FS.paths (fs : FS) : List FPath := fs.files.map (fun e => e.1)

/-- The number of file entries at path `p` (0 when missing, 1 when present). -/
def FS.countAt (fs : FS) (p : FPath) : Nat :=
  (fs.files.filter (fun e => e.1 == p)).length

/-- `Path.name` of a file path. -/
def fileName (p : FPath) : String := p.getLastD ""

/-- `path.parent.name`: the name of the immediate parent directory. -/
def parentName (p : FPath) : String := p.dropLast.getLastD ""

/-- `rglob("cds_from_genomic.fna")` matches a name: exact equality. -/
def isCdsName (n : String) : Bool := n == "cds_from_genomic.fna"

/-- `rglob("*.gff")` matches a name: fnmatch, i.e. the name ends in ".gff". -/
def isGffName (n : String) : Bool := decide (".gff".data <:+ n.data)

/-- `temp_dir.rglob(pattern)`: every file strictly below `d` whose file name
matches, in filesystem listing order. -/
def FS.rglob (fs : FS) (d : FPath) (pat : String → Bool) : List FPath :=
  (fs.files.map (fun e => e.1)).filter (fun p => isUnder d p && pat (fileName p))

/-- One entry of a zip archive: path relative to the extraction root. -/
structure ZipEntry where
  path : FPath
  content : String
deriving DecidableEq

/-- Interpretation of a downloaded archive's bytes. `corrupt` models
`zipfile.ZipFile` raising `BadZipFile` on open. -/
inductive Archive where
  | corrupt
  | entries (es : List ZipEntry)
deriving DecidableEq

/-- `zip_ref.extractall(d)`: create `d` and write every entry below it
(creating the intermediate directories), overwriting existing files. -/
def extractAll (fs : FS) (d : FPath) (es : List ZipEntry) : FS :=
  es.foldl
    (fun acc e => (acc.mkdir (d ++ e.path.dropLast)).insertFile (d ++ e.path) e.content)
    (fs.mkdir d)

structure RefSeqDataDownloader where
  output_dir : FPath
  datasets_tool : String
deriving DecidableEq

def RefSeqDataDownloader.cds_dir (s : RefSeqDataDownloader) : FPath :=
  s.output_dir ++ ["cds_files"]

def RefSeqDataDownloader.gff_dir (s : RefSeqDataDownloader) : FPath :=
  s.output_dir ++ ["gff_files"]

/-- `__init__`: record the fields and create the output directory and both
destination subdirectories (`mkdir(exist_ok=True)`). -/
def RefSeqDataDownloader.init (output_dir : FPath) (tool : String) (fs : FS) :
    RefSeqDataDownloader × FS :=
  let s : RefSeqDataDownloader := ⟨output_dir, tool⟩
  (s, ((fs.mkdir s.output_dir).mkdir s.cds_dir).mkdir s.gff_dir)

/-- The scratch directory `temp_{family}`. -/
def tempPath (family : String) : FPath := ["temp_" ++ family]

/-- Destination path of a matched coding-sequence file:
`cds_dir / {parent.name}_{family}.fna`. -/
def cdsDest (s : RefSeqDataDownloader) (family : String) (p : FPath) : FPath :=
  s.cds_dir ++ [parentName p ++ "_" ++ family ++ ".fna"]

/-- Destination path of a matched gene-feature file:
`gff_dir / {parent.name}_{family}.gff`. -/
def gffDest (s : RefSeqDataDownloader) (family : String) (p : FPath) : FPath :=
  s.gff_dir ++ [parentName p ++ "_" ++ family ++ ".gff"]

/-- Result of `extract_and_organize_files`: the filesystem afterwards, the
return value, and which of the three log events fired (missing-zip error,
caught exception, zero-matches warning). -/
structure OrgOutcome where
  fs : FS
  ret : Bool
  missingZipError : Bool
  exceptionCaught : Bool
  warnedNoFiles : Bool
deriving DecidableEq

/-- The scratch state after `zip_ref.extractall(f"temp_{family}")`
(local `temp_dir` tree, line 131 of the source). -/
def org_temp_fs (family : String) (es : List ZipEntry) (fs : FS) : FS :=
  extractAll fs (tempPath family) es

/-- Local `cds_files = list(temp_dir.rglob("cds_from_genomic.fna"))`. -/
def org_cds_files (family : String) (es : List ZipEntry) (fs : FS) : List FPath :=
  (org_temp_fs family es fs).rglob (tempPath family) isCdsName

/-- The filesystem after the first `for` loop moved every matched
coding-sequence file to `cds_dir / {parent.name}_{family}.fna`. -/
def org_fs_after_cds (s : RefSeqDataDownloader) (family : String)
    (es : List ZipEntry) (fs : FS) : FS :=
  (org_cds_files family es fs).foldl (fun acc p => acc.move p (cdsDest s family p))
    (org_temp_fs family es fs)

/-- Local `gff_files = list(temp_dir.rglob("*.gff"))`, scanned after the
coding-sequence moves. -/
def org_gff_files (s : RefSeqDataDownloader) (family : String)
    (es : List ZipEntry) (fs : FS) : List FPath :=
  (org_fs_after_cds s family es fs).rglob (tempPath family) isGffName

/-- The filesystem after the second `for` loop moved every matched
gene-feature file to `gff_dir / {parent.name}_{family}.gff`. -/
def org_fs_after_gff (s : RefSeqDataDownloader) (family : String)
    (es : List ZipEntry) (fs : FS) : FS :=
  (org_gff_files s family es fs).foldl (fun acc p => acc.move p (gffDest s family p))
    (org_fs_after_cds s family es fs)

/-- Local `total_files = len(cds_files) + len(gff_files)`. -/
def org_total (s : RefSeqDataDownloader) (family : String)
    (es : List ZipEntry) (fs : FS) : Nat :=
  (org_cds_files family es fs).length + (org_gff_files s family es fs).length

/-- The filesystem after cleanup: `shutil.rmtree(temp_dir)` and
`os.remove(zip_filename)`. -/
def org_final_fs (s : RefSeqDataDownloader) (zip_filename family : String)
    (es : List ZipEntry) (fs : FS) : FS :=
  ((org_fs_after_gff s family es fs).rmtree (tempPath family)).removeFile [zip_filename]

/-- `extract_and_organize_files(zip_filename, family)`. The happy path
extracts to `temp_{family}`, moves every `cds_from_genomic.fna` match into
`cds_dir` and every `*.gff` match into `gff_dir` (renamed from the parent
directory and the family), warns when nothing matched, deletes the scratch
tree and the archive, and returns whether anything matched. A missing
archive or an extraction exception returns `False` without cleanup. -/
def RefSeqDataDownloader.extract_and_organize_files (s : RefSeqDataDownloader)
    (zip_filename : String) (family : String) (archive : Archive) (fs : FS) :
    OrgOutcome :=
  if fs.fileExists [zip_filename] = false then
    { fs := fs, ret := false, missingZipError := true,
      exceptionCaught := false, warnedNoFiles := false }
  else
    match archive with
    | .corrupt =>
      { fs := fs, ret := false, missingZipError := false,
        exceptionCaught := true, warnedNoFiles := false }
    | .entries es =>
      { fs := org_final_fs s zip_filename family es fs,
        ret := decide (org_total s family es fs > 0), missingZipError := false,
        exceptionCaught := false,
        warnedNoFiles := decide (org_total s family es fs = 0) }

/-- JSON values, for the parse result of the probe's stdout. -/
inductive Json where
  | null
  | bool (b : Bool)
  | num (n : Int)
  | str (s : String)
  | arr (xs : List Json)
  | obj (fields : List (String × Json))

/-- The probe subprocess's stdout together with what `json.loads` (Python
standard library) yields on it: `none` models a raised `JSONDecodeError`. -/
structure ToolStdout where
  raw : String
  jsonParse : Option Json

/-- Result of a `subprocess.run(..., check=True)` invocation. -/
inductive ProcResult where
  | calledProcessError
  | success (out : ToolStdout)

/-- Python `"record_count" in result.stdout`: substring containment. -/
def containsRecordCountMarker (s : String) : Bool :=
  decide ("record_count".data <:+: s.data)

/-- `get_available_species(family)`. Only `CalledProcessError` is caught;
a `JSONDecodeError` from `json.loads` (marker present, text not JSON), an
`AttributeError` (parsed value not a dict, so no `.get`) or a `TypeError`
(`record_count > 0` on a non-number) escapes as an uncaught exception,
modelled by `.error`. -/
def get_available_species (family : String) (proc : ProcResult) :
    Except String (List String) :=
  match proc with
  | .calledProcessError => .ok []
  | .success out =>
    if containsRecordCountMarker out.raw then
      match out.jsonParse with
      | none => .error "json.JSONDecodeError"
      | some j =>
        match j with
        | .obj fields =>
          match ((fields.find? (fun f => f.1 == "record_count")).map
              (fun f => f.2)).getD (.num 0) with
          | .num n => .ok (if n > 0 then [family] else [])
          | .bool b => .ok (if b then [family] else [])
          | _ => .error "TypeError: not supported between instances"
        | _ => .error "AttributeError: object has no attribute get"
    else .ok []

/-- The `--include` parameter of `download_genome_data`: "cds" and/or "gff3",
defaulting to both when neither flag is set. -/
def buildIncludeParam (include_cds include_gff : Bool) : String :=
  let include_files :=
    (if include_cds then ["cds"] else []) ++ (if include_gff then ["gff3"] else [])
  let include_files := if include_files.isEmpty then ["cds", "gff3"] else include_files
  String.intercalate "," include_files

/-- The deterministic archive name `refseq_{family}_chromosome_data.zip`. -/
def downloadFilename (family : String) : String :=
  "refseq_" ++ family ++ "_chromosome_data.zip"

/-- One external-tool invocation performed by the script. -/
inductive Event where
  | toolVersionCheck
  | probeCall (family : String)
  | downloadCall (family : String) (includeParam : String) (filename : String)
deriving DecidableEq

/-- The behaviour of the external world during one run: the version check's
success, the probe's result, the download invocation's success, and the
interpretation of the downloaded archive's bytes. -/
structure Env where
  toolCheckOk : Bool
  probeResult : ProcResult
  downloadOk : Bool
  archive : Archive

/-- `download_genome_data(family, include_cds, include_gff)`: one download
invocation; on success the archive file appears on disk and the filename is
returned, otherwise `None`. -/
def download_genome_data (family : String) (include_cds include_gff : Bool)
    (env : Env) (fs : FS) : Option String × FS × List Event :=
  let include_param := buildIncludeParam include_cds include_gff
  let filename := downloadFilename family
  if env.downloadOk then
    (some filename, fs.insertFile [filename] "zip archive bytes",
      [.downloadCall family include_param filename])
  else
    (none, fs, [.downloadCall family include_param filename])

/-- Accumulator of the per-taxon loop in `download_family_data`. -/
structure FamAcc where
  success_count : Nat
  fs : FS
  trace : List Event

/-- The body of the per-taxon loop in `download_family_data`: download, then
extract and organize; count the taxon on full success. -/
def processTaxon (s : RefSeqDataDownloader) (include_cds include_gff : Bool)
    (env : Env) (acc : FamAcc) (taxon : String) : FamAcc :=
  match download_genome_data taxon include_cds include_gff env acc.fs with
  | (none, fs2, ev) =>
    { success_count := acc.success_count, fs := fs2, trace := acc.trace ++ ev }
  | (some zip_filename, fs2, ev) =>
    let r := s.extract_and_organize_files zip_filename taxon env.archive fs2
    { success_count := if r.ret then acc.success_count + 1 else acc.success_count,
      fs := r.fs, trace := acc.trace ++ ev }

/-- Outcome of `download_family_data`: a returned boolean, or an uncaught
exception propagating out of `get_available_species`. -/
inductive FamOutcome where
  | done (success : Bool)
  | exn (msg : String)
deriving DecidableEq

/-- `download_family_data(family, include_cds, include_gff)`. -/
def download_family_data (s : RefSeqDataDownloader) (family : String)
    (include_cds include_gff : Bool) (env : Env) (fs : FS) :
    FamOutcome × FS × List Event :=
  match get_available_species family env.probeResult with
  | .error msg => (.exn msg, fs, [.probeCall family])
  | .ok available_species =>
    if available_species.isEmpty then
      (.done false, fs, [.probeCall family])
    else
      let acc := available_species.foldl (processTaxon s include_cds include_gff env)
        { success_count := 0, fs := fs, trace := [.probeCall family] }
      (.done (decide (acc.success_count > 0)), acc.fs, acc.trace)

/-- The parsed command-line arguments. -/
structure Args where
  family : String
  output_dir : FPath
  no_cds : Bool
  no_gff : Bool
  datasets_tool : String

/-- Observable outcome of a whole run of `main`: process exit code, the
trace of external-tool invocations, the final filesystem, and whether the
process died of an uncaught exception (Python exits with code 1 then). -/
structure MainOutcome where
  exitCode : Nat
  trace : List Event
  fs : FS
  crashed : Bool

/-- `main()`: construct the downloader (creating the output directories),
run `check_datasets_tool` (always one `--version` invocation of the tool),
validate the flags, then run `download_family_data` and exit 0 exactly on
success. -/
def main (args : Args) (env : Env) (fs0 : FS) : MainOutcome :=
  let dl := RefSeqDataDownloader.init args.output_dir args.datasets_tool fs0
  let downloader := dl.1
  let fs1 := dl.2
  let trace0 : List Event := [.toolVersionCheck]
  if env.toolCheckOk = false then
    { exitCode := 1, trace := trace0, fs := fs1, crashed := false }
  else
    let include_cds := !args.no_cds
    let include_gff := !args.no_gff
    if !include_cds && !include_gff then
      { exitCode := 1, trace := trace0, fs := fs1, crashed := false }
    else
      match download_family_data downloader args.family include_cds include_gff env fs1 with
      | (.exn _, fs2, tr) =>
        { exitCode := 1, trace := trace0 ++ tr, fs := fs2, crashed := true }
      | (.done success, fs2, tr) =>
        { exitCode := if success then 0 else 1, trace := trace0 ++ tr, fs := fs2,
          crashed := false }

end RefSeqDL

namespace RefSeqDL

/-! ## Helper lemmas about the filesystem model -/

theorem cleanup_no_files_under (fs : FS) (d p : FPath) :
    ((fs.rmtree d).removeFile p).files.filter (fun e => isUnder d e.1) = [] := by
  rw [List.filter_eq_nil_iff]
  intro e he
  simp only [FS.removeFile, FS.rmtree, List.mem_filter, Bool.not_eq_eq_eq_not,
    Bool.not_true] at he
  simp [he.1.2]

theorem cleanup_temp_dir_removed (fs : FS) (d p : FPath) :
    d ∉ ((fs.rmtree d).removeFile p).dirs := by
  intro hd
  simp [FS.removeFile, FS.rmtree, List.mem_filter] at hd

theorem fileExists_removeFile_self (fs : FS) (p : FPath) :
    (fs.removeFile p).fileExists p = false := by
  simp [FS.removeFile, FS.fileExists, List.any_eq_true, List.mem_filter]

/-- On the no-exception path (archive present and readable),
`extract_and_organize_files` runs the whole organize-then-cleanup pipeline. -/
theorem extract_entries_eq (s : RefSeqDataDownloader)
    (zip_filename family : String) (es : List ZipEntry) (fs : FS)
    (h : fs.fileExists [zip_filename] = true) :
    s.extract_and_organize_files zip_filename family (.entries es) fs =
      { fs := org_final_fs s zip_filename family es fs,
        ret := decide (org_total s family es fs > 0), missingZipError := false,
        exceptionCaught := false,
        warnedNoFiles := decide (org_total s family es fs = 0) } := by
  unfold RefSeqDataDownloader.extract_and_organize_files
  simp [h]

/-- A corrupt archive (extraction raises) is caught: failure is returned and
the filesystem is untouched. -/
theorem extract_corrupt_eq (s : RefSeqDataDownloader) (zip_filename family : String)
    (fs : FS) (h : fs.fileExists [zip_filename] = true) :
    s.extract_and_organize_files zip_filename family .corrupt fs =
      { fs := fs, ret := false, missingZipError := false,
        exceptionCaught := true, warnedNoFiles := false } := by
  unfold RefSeqDataDownloader.extract_and_organize_files
  simp [h]

/-! ## Claim theorems -/

/-- C3: when the archive exists and no exception occurs (the archive is
readable), `extract_and_organize_files` deletes the scratch directory
`temp_{family}` and the archive file before returning, for every archive
content, i.e. however many files matched (including zero); and when an
exception occurs during extraction (corrupt archive), the function returns
failure and performs no cleanup (the filesystem is left unchanged, so the
archive file in particular still exists). -/
theorem extract_organize_cleanup (s : RefSeqDataDownloader)
    (zip_filename family : String) (es : List ZipEntry) (fs : FS)
    (h : fs.fileExists [zip_filename] = true) :
    ((s.extract_and_organize_files zip_filename family (.entries es) fs).fs.files.filter
        (fun e => isUnder (tempPath family) e.1) = [] ∧
      tempPath family ∉
        (s.extract_and_organize_files zip_filename family (.entries es) fs).fs.dirs ∧
      (s.extract_and_organize_files zip_filename family (.entries es) fs).fs.fileExists
        [zip_filename] = false) ∧
    ((s.extract_and_organize_files zip_filename family .corrupt fs).ret = false ∧
      (s.extract_and_organize_files zip_filename family .corrupt fs).fs = fs) := by
  rw [extract_corrupt_eq s zip_filename family fs h,
    extract_entries_eq s zip_filename family es fs h]
  exact ⟨⟨cleanup_no_files_under _ _ _, cleanup_temp_dir_removed _ _ _,
    fileExists_removeFile_self _ _⟩, rfl, rfl⟩

/-- C3 witness: a concrete run (archive present, empty entry list) in which
cleanup happens, and a concrete corrupt-archive run with no cleanup. -/
theorem extract_organize_cleanup_witness :
    (FS.fileExists ⟨[(["z.zip"], "b")], []⟩ ["z.zip"] = true) ∧
    ((RefSeqDataDownloader.extract_and_organize_files ⟨["refseq_data"], "dt"⟩
          "z.zip" "fam" (.entries []) ⟨[(["z.zip"], "b")], []⟩).fs.files.filter
        (fun e => isUnder (tempPath "fam") e.1) = [] ∧
      tempPath "fam" ∉
        (RefSeqDataDownloader.extract_and_organize_files ⟨["refseq_data"], "dt"⟩
          "z.zip" "fam" (.entries []) ⟨[(["z.zip"], "b")], []⟩).fs.dirs ∧
      (RefSeqDataDownloader.extract_and_organize_files ⟨["refseq_data"], "dt"⟩
          "z.zip" "fam" (.entries []) ⟨[(["z.zip"], "b")], []⟩).fs.fileExists
        ["z.zip"] = false) ∧
    ((RefSeqDataDownloader.extract_and_organize_files ⟨["refseq_data"], "dt"⟩
          "z.zip" "fam" .corrupt ⟨[(["z.zip"], "b")], []⟩).ret = false ∧
      (RefSeqDataDownloader.extract_and_organize_files ⟨["refseq_data"], "dt"⟩
          "z.zip" "fam" .corrupt ⟨[(["z.zip"], "b")], []⟩).fs = ⟨[(["z.zip"], "b")], []⟩) :=
  ⟨by decide,
    extract_organize_cleanup ⟨["refseq_data"], "dt"⟩ "z.zip" "fam" []
      ⟨[(["z.zip"], "b")], []⟩ (by decide)⟩

/-- C4: when the named archive file does not exist, `extract_and_organize_files`
logs an error and returns failure with the filesystem completely unchanged
(in particular no scratch directory is created). -/
theorem extract_missing_zip (s : RefSeqDataDownloader) (zip_filename family : String)
    (archive : Archive) (fs : FS) (h : fs.fileExists [zip_filename] = false) :
    s.extract_and_organize_files zip_filename family archive fs =
      { fs := fs, ret := false, missingZipError := true,
        exceptionCaught := false, warnedNoFiles := false } := by
  unfold RefSeqDataDownloader.extract_and_organize_files
  simp [h]

/-- C4 witness: concrete run on an empty filesystem. -/
theorem extract_missing_zip_witness :
    (FS.fileExists ⟨[], []⟩ ["z.zip"] = false) ∧
    RefSeqDataDownloader.extract_and_organize_files ⟨["refseq_data"], "dt"⟩
        "z.zip" "fam" .corrupt ⟨[], []⟩ =
      { fs := ⟨[], []⟩, ret := false, missingZipError := true,
        exceptionCaught := false, warnedNoFiles := false } :=
  ⟨by decide,
    extract_missing_zip ⟨["refseq_data"], "dt"⟩ "z.zip" "fam" .corrupt ⟨[], []⟩ (by decide)⟩

/-- C9: calling `download_genome_data` with both content-kind flags disabled
is not rejected: the include parameter silently defaults to "cds,gff3", the
download invocation is performed with that parameter, and the call returns
the archive filename exactly when the invocation succeeds. -/
theorem download_genome_data_defaults_both (family : String) (env : Env) (fs : FS) :
    buildIncludeParam false false = "cds,gff3" ∧
    (download_genome_data family false false env fs).2.2 =
      [Event.downloadCall family "cds,gff3" (downloadFilename family)] ∧
    ((download_genome_data family false false env fs).1 =
        some (downloadFilename family) ↔ env.downloadOk = true) := by
  have hparam : buildIncludeParam false false = "cds,gff3" := by decide
  refine ⟨hparam, ?_⟩
  cases h : env.downloadOk <;> simp [download_genome_data, h, hparam]

/-- C5 counterexample: probe stdout that contains the record-count marker but
is not valid JSON (the literal text "record_count"; `json.loads` raises on
it) makes `get_available_species` escalate an uncaught `JSONDecodeError`
instead of returning an empty result. -/
theorem get_available_species_escalates_cex :
    get_available_species "gobiidae" (.success ⟨"record_count", none⟩) =
      .error "json.JSONDecodeError" := by rfl

/-- C5 (amended): an invocation failure (`CalledProcessError`) or output not
containing the record-count marker is treated as "no data available" and an
empty list is returned; but output that contains the marker and is not valid
JSON raises a `JSONDecodeError` that escapes to the caller. -/
theorem get_available_species_error_handling (family : String) (out : ToolStdout) :
    get_available_species family .calledProcessError = .ok [] ∧
    (containsRecordCountMarker out.raw = false →
      get_available_species family (.success out) = .ok []) ∧
    (containsRecordCountMarker out.raw = true → out.jsonParse = none →
      get_available_species family (.success out) = .error "json.JSONDecodeError") := by
  refine ⟨rfl, ?_, ?_⟩
  · intro h
    simp [get_available_species, h]
  · intro h hp
    simp [get_available_species, h, hp]

/-- C5 witness: the amended behaviour at concrete inputs (marker-free output
gives an empty result; marker present but unparseable escalates). -/
theorem get_available_species_error_handling_witness :
    (containsRecordCountMarker "no data" = false ∧
      get_available_species "gobiidae" (.success ⟨"no data", none⟩) = .ok []) ∧
    (containsRecordCountMarker "record_count" = true ∧
      get_available_species "gobiidae" (.success ⟨"record_count", none⟩) =
        .error "json.JSONDecodeError") :=
  ⟨⟨by decide,
      (get_available_species_error_handling "gobiidae" ⟨"no data", none⟩).2.1 (by decide)⟩,
    ⟨by decide,
      (get_available_species_error_handling "gobiidae" ⟨"record_count", none⟩).2.2
        (by decide) rfl⟩⟩

/-- C6 counterexample: a run with both skip flags set in which the external
tool is nevertheless invoked (the `--version` availability check runs before
the flag validation), refuting "the external tool is never invoked in such a
run". -/
theorem main_both_flags_tool_invoked_cex :
    Event.toolVersionCheck ∈
      (main ⟨"gobiidae", ["refseq_data"], true, true, "datasets"⟩
        ⟨true, .calledProcessError, true, .corrupt⟩ ⟨[], []⟩).trace := by decide

/-- C6 (amended): when both skip flags are set the program exits with status
1 before any probe or download invocation — its whole invocation trace is the
single `--version` availability check, which does run first. -/
theorem main_both_flags_nonzero_exit (args : Args) (env : Env) (fs0 : FS)
    (hc : args.no_cds = true) (hg : args.no_gff = true) :
    (main args env fs0).exitCode = 1 ∧
    (main args env fs0).trace = [Event.toolVersionCheck] := by
  cases h : env.toolCheckOk <;> simp [main, hc, hg, h]

/-- C6 witness: the amended behaviour at a concrete both-flags run. -/
theorem main_both_flags_nonzero_exit_witness :
    ((main ⟨"gobiidae", ["refseq_data"], true, true, "datasets"⟩
        ⟨true, .calledProcessError, true, .corrupt⟩ ⟨[], []⟩).exitCode = 1 ∧
      (main ⟨"gobiidae", ["refseq_data"], true, true, "datasets"⟩
        ⟨true, .calledProcessError, true, .corrupt⟩ ⟨[], []⟩).trace =
        [Event.toolVersionCheck]) :=
  main_both_flags_nonzero_exit ⟨"gobiidae", ["refseq_data"], true, true, "datasets"⟩
    ⟨true, .calledProcessError, true, .corrupt⟩ ⟨[], []⟩ rfl rfl

/-! ## Path and content lemmas for the filesystem model -/

theorem mem_paths (fs : FS) (q : FPath) : q ∈ fs.paths ↔ ∃ c, (q, c) ∈ fs.files := by
  constructor
  · intro h
    obtain ⟨⟨a, c⟩, he, hq⟩ := List.mem_map.mp h
    cases hq
    exact ⟨c, he⟩
  · rintro ⟨c, hc⟩
    exact List.mem_map.mpr ⟨(q, c), hc, rfl⟩

theorem fileExists_iff (fs : FS) (q : FPath) : fs.fileExists q = true ↔ q ∈ fs.paths := by
  rw [mem_paths]
  constructor
  · intro h
    obtain ⟨⟨a, c⟩, he, hq⟩ := List.any_eq_true.mp h
    exact ⟨c, by rwa [show a = q from by simpa using hq] at he⟩
  · rintro ⟨c, hc⟩
    exact List.any_eq_true.mpr ⟨(q, c), hc, by simp⟩

theorem mem_paths_insertFile (fs : FS) (p q : FPath) (c : String) :
    q ∈ (fs.insertFile p c).paths ↔ q = p ∨ q ∈ fs.paths := by
  simp only [mem_paths, FS.insertFile, List.mem_append, List.mem_filter,
    List.mem_singleton]
  constructor
  · rintro ⟨c2, (⟨h, _⟩ | h)⟩
    · exact Or.inr ⟨c2, h⟩
    · exact Or.inl (congrArg Prod.fst h)
  · rintro (rfl | ⟨c2, h⟩)
    · exact ⟨c, Or.inr rfl⟩
    · by_cases hq : q = p
      · exact ⟨c, Or.inr (by rw [hq])⟩
      · exact ⟨c2, Or.inl ⟨h, by simpa using hq⟩⟩

theorem mem_paths_removeFile (fs : FS) (p q : FPath) :
    q ∈ (fs.removeFile p).paths ↔ q ∈ fs.paths ∧ q ≠ p := by
  simp only [mem_paths, FS.removeFile, List.mem_filter]
  constructor
  · rintro ⟨c2, h, hne⟩
    exact ⟨⟨c2, h⟩, by simpa using hne⟩
  · rintro ⟨⟨c2, h⟩, hne⟩
    exact ⟨c2, h, by simpa using hne⟩

theorem files_mkdir (fs : FS) (p : FPath) : (fs.mkdir p).files = fs.files := by
  unfold FS.mkdir
  split <;> rfl

theorem paths_mkdir (fs : FS) (p : FPath) : (fs.mkdir p).paths = fs.paths := by
  unfold FS.paths
  rw [files_mkdir]

theorem mem_dirs_mkdir (fs : FS) (p q : FPath) :
    q ∈ (fs.mkdir p).dirs ↔ q = p ∨ q ∈ fs.dirs := by
  unfold FS.mkdir
  split
  · rename_i h
    constructor
    · exact Or.inr
    · rintro (rfl | hq)
      · simpa using h
      · exact hq
  · simp [or_comm]

theorem mem_paths_move (fs : FS) (src dst q : FPath) :
    q ∈ (fs.move src dst).paths ↔ q = dst ∨ (q ∈ fs.paths ∧ q ≠ src) := by
  unfold FS.move
  rw [mem_paths_insertFile, mem_paths_removeFile]

theorem dirs_insertFile (fs : FS) (p : FPath) (c : String) :
    (fs.insertFile p c).dirs = fs.dirs := rfl

theorem dirs_removeFile (fs : FS) (p : FPath) :
    (fs.removeFile p).dirs = fs.dirs := rfl

theorem dirs_move (fs : FS) (src dst : FPath) :
    (fs.move src dst).dirs = fs.dirs := rfl

theorem lookupFile_insertFile_self (fs : FS) (p : FPath) (c : String) :
    (fs.insertFile p c).lookupFile p = some c := by
  unfold FS.insertFile FS.lookupFile
  rw [List.find?_append]
  have h1 : (fs.files.filter (fun e => !(e.1 == p))).find? (fun e => e.1 == p) = none := by
    rw [List.find?_eq_none]
    intro e he
    simp only [List.mem_filter] at he
    simpa using he.2
  rw [h1]
  simp

theorem find?_filter_ne (l : List (FPath × String)) (p q : FPath) (h : q ≠ p) :
    (l.filter (fun e => !(e.1 == p))).find? (fun e => e.1 == q) =
      l.find? (fun e => e.1 == q) := by
  induction l with
  | nil => rfl
  | cons a t ih =>
    by_cases hap : a.1 = p
    · have haq : ¬ ((a.1 == q) = true) := by
        simp only [beq_iff_eq, hap]
        exact fun hpq => h hpq.symm
      rw [List.filter_cons_of_neg (by simp [hap]),
        List.find?_cons_of_neg (p := fun e : FPath × String => e.1 == q) _ haq]
      exact ih
    · rw [List.filter_cons_of_pos (by simp [hap])]
      by_cases haq : a.1 = q
      · rw [List.find?_cons_of_pos (p := fun e : FPath × String => e.1 == q) _ (by simp [haq]),
          List.find?_cons_of_pos (p := fun e : FPath × String => e.1 == q) _ (by simp [haq])]
      · rw [List.find?_cons_of_neg (p := fun e : FPath × String => e.1 == q) _ (by simp [haq]),
          List.find?_cons_of_neg (p := fun e : FPath × String => e.1 == q) _ (by simp [haq])]
        exact ih

theorem lookupFile_insertFile_ne (fs : FS) (p q : FPath) (c : String) (h : q ≠ p) :
    (fs.insertFile p c).lookupFile q = fs.lookupFile q := by
  unfold FS.insertFile FS.lookupFile
  rw [List.find?_append, find?_filter_ne fs.files p q h]
  have h2 : ([((p : FPath), c)].find? (fun e => e.1 == q)) = none := by
    rw [List.find?_cons_of_neg (p := fun e : FPath × String => e.1 == q) _
      (by simp only [beq_iff_eq]; exact fun hpq => h hpq.symm)]
    rfl
  rw [h2]
  cases fs.files.find? (fun e => e.1 == q) <;> rfl

theorem lookupFile_removeFile_self (fs : FS) (p : FPath) :
    (fs.removeFile p).lookupFile p = none := by
  unfold FS.removeFile FS.lookupFile
  have h1 : (fs.files.filter (fun e => !(e.1 == p))).find? (fun e => e.1 == p) = none := by
    rw [List.find?_eq_none]
    intro e he
    simp only [List.mem_filter] at he
    simpa using he.2
  rw [h1]
  rfl

theorem lookupFile_removeFile_ne (fs : FS) (p q : FPath) (h : q ≠ p) :
    (fs.removeFile p).lookupFile q = fs.lookupFile q := by
  unfold FS.removeFile FS.lookupFile
  rw [find?_filter_ne fs.files p q h]

theorem lookupFile_move_dest (fs : FS) (src dst : FPath) :
    (fs.move src dst).lookupFile dst = some ((fs.lookupFile src).getD "") :=
  lookupFile_insertFile_self _ _ _

theorem lookupFile_move_src (fs : FS) (src dst : FPath) (h : src ≠ dst) :
    (fs.move src dst).lookupFile src = none := by
  unfold FS.move
  rw [lookupFile_insertFile_ne _ _ _ _ h]
  exact lookupFile_removeFile_self _ _

theorem lookupFile_move_ne (fs : FS) (src dst q : FPath) (h1 : q ≠ dst) (h2 : q ≠ src) :
    (fs.move src dst).lookupFile q = fs.lookupFile q := by
  unfold FS.move
  rw [lookupFile_insertFile_ne _ _ _ _ h1, lookupFile_removeFile_ne _ _ _ h2]

theorem countAt_insertFile_self (fs : FS) (p : FPath) (c : String) :
    (fs.insertFile p c).countAt p = 1 := by
  unfold FS.insertFile FS.countAt
  rw [List.filter_append, List.filter_filter]
  simp

theorem countAt_insertFile_ne (fs : FS) (p q : FPath) (c : String) (h : q ≠ p) :
    (fs.insertFile p c).countAt q = fs.countAt q := by
  unfold FS.insertFile FS.countAt
  rw [List.filter_append, List.filter_filter]
  have h2 : (fs.files.filter (fun e => (e.1 == q) && !(e.1 == p))) =
      fs.files.filter (fun e => e.1 == q) := by
    apply List.filter_congr
    intro e _
    by_cases hq : e.1 = q
    · simp [hq, h]
    · simp [hq]
  rw [h2]
  have h3 : ([((p : FPath), c)].filter (fun e => e.1 == q)) = [] := by
    simp [Ne.symm h]
  rw [h3, List.append_nil]

theorem countAt_removeFile_self (fs : FS) (p : FPath) :
    (fs.removeFile p).countAt p = 0 := by
  unfold FS.removeFile FS.countAt
  rw [List.filter_filter]
  simp

theorem countAt_removeFile_ne (fs : FS) (p q : FPath) (h : q ≠ p) :
    (fs.removeFile p).countAt q = fs.countAt q := by
  unfold FS.removeFile FS.countAt
  rw [List.filter_filter]
  congr 1
  apply List.filter_congr
  intro e _
  by_cases hq : e.1 = q
  · simp [hq, h]
  · simp [hq]

theorem countAt_eq_zero_iff (fs : FS) (q : FPath) :
    fs.countAt q = 0 ↔ q ∉ fs.paths := by
  unfold FS.countAt
  rw [List.length_eq_zero, List.filter_eq_nil_iff, mem_paths]
  constructor
  · rintro h ⟨c, hc⟩
    exact absurd (by simp : (((q, c) : FPath × String).1 == q) = true) (h _ hc)
  · intro h e he
    simp only [beq_iff_eq]
    intro hq
    exact h ⟨e.2, by rw [← hq]; exact he⟩

theorem countAt_move_dest (fs : FS) (src dst : FPath) :
    (fs.move src dst).countAt dst = 1 :=
  countAt_insertFile_self _ _ _

theorem countAt_move_ne (fs : FS) (src dst q : FPath) (h1 : q ≠ dst) (h2 : q ≠ src) :
    (fs.move src dst).countAt q = fs.countAt q := by
  unfold FS.move
  rw [countAt_insertFile_ne _ _ _ _ h1, countAt_removeFile_ne _ _ _ h2]

theorem dirs_foldMove (f : FPath → FPath) :
    ∀ (srcs : List FPath) (fs0 : FS),
      (srcs.foldl (fun acc p => acc.move p (f p)) fs0).dirs = fs0.dirs := by
  intro srcs
  induction srcs with
  | nil => intro fs0; rfl
  | cons a t ih =>
    intro fs0
    rw [List.foldl_cons, ih, dirs_move]

theorem countAt_mkdir (fs : FS) (p q : FPath) : (fs.mkdir p).countAt q = fs.countAt q := by
  unfold FS.countAt
  rw [files_mkdir]

theorem lookupFile_mkdir (fs : FS) (p q : FPath) :
    (fs.mkdir p).lookupFile q = fs.lookupFile q := by
  unfold FS.lookupFile
  rw [files_mkdir]

theorem find?_filter_of_imp (l : List (FPath × String)) (A B : FPath × String → Bool)
    (h : ∀ e, B e = true → A e = true) : (l.filter A).find? B = l.find? B := by
  induction l with
  | nil => rfl
  | cons a t ih =>
    by_cases hB : B a = true
    · rw [List.filter_cons_of_pos (h a hB), List.find?_cons_of_pos (p := B) _ hB,
        List.find?_cons_of_pos (p := B) _ hB]
    · by_cases hA : A a = true
      · rw [List.filter_cons_of_pos hA, List.find?_cons_of_neg (p := B) _ hB,
          List.find?_cons_of_neg (p := B) _ hB]
        exact ih
      · rw [List.filter_cons_of_neg (by simpa using hA),
          List.find?_cons_of_neg (p := B) _ hB]
        exact ih

theorem mem_paths_rmtree (fs : FS) (d q : FPath) :
    q ∈ (fs.rmtree d).paths ↔ q ∈ fs.paths ∧ isUnder d q = false := by
  simp only [mem_paths, FS.rmtree, List.mem_filter]
  constructor
  · rintro ⟨c, hc, hun⟩
    exact ⟨⟨c, hc⟩, by simpa using hun⟩
  · rintro ⟨⟨c, hc⟩, hun⟩
    exact ⟨c, hc, by simpa using hun⟩

theorem mem_dirs_rmtree (fs : FS) (d q : FPath) :
    q ∈ (fs.rmtree d).dirs ↔ q ∈ fs.dirs ∧ q ≠ d ∧ isUnder d q = false := by
  simp only [FS.rmtree, List.mem_filter, Bool.and_eq_true, Bool.not_eq_eq_eq_not,
    Bool.not_true, beq_eq_false_iff_ne, ne_eq]

theorem countAt_rmtree_not_under (fs : FS) (d q : FPath) (h : isUnder d q = false) :
    (fs.rmtree d).countAt q = fs.countAt q := by
  unfold FS.rmtree FS.countAt
  simp only
  rw [List.filter_filter]
  apply congrArg
  apply List.filter_congr
  intro e _
  by_cases hq : e.1 = q
  · simp [hq, h]
  · simp [hq]

theorem lookupFile_rmtree_not_under (fs : FS) (d q : FPath) (h : isUnder d q = false) :
    (fs.rmtree d).lookupFile q = fs.lookupFile q := by
  unfold FS.rmtree FS.lookupFile
  simp only
  rw [find?_filter_of_imp]
  intro e hB
  have he : e.1 = q := by simpa using hB
  simp [he, h]

/-! ## isUnder, fileName and pattern lemmas -/

theorem isUnder_append_right (d p : FPath) : isUnder d (d ++ p) = true ↔ p ≠ [] := by
  unfold isUnder
  simp only [Bool.and_eq_true, decide_eq_true_eq]
  constructor
  · rintro ⟨-, hlen⟩ rfl
    simp at hlen
  · intro hp
    refine ⟨List.prefix_append d p, ?_⟩
    have hlen : 0 < p.length := List.length_pos.mpr hp
    rw [List.length_append]
    omega

theorem isUnder_iff (d p : FPath) : isUnder d p = true ↔ d <+: p ∧ d.length < p.length := by
  unfold isUnder
  simp

theorem isUnder_false_iff (d p : FPath) :
    isUnder d p = false ↔ ¬ (d <+: p ∧ d.length < p.length) := by
  rw [← Bool.not_eq_true, isUnder_iff]

theorem fileName_append (d p : FPath) (h : p ≠ []) : fileName (d ++ p) = fileName p := by
  unfold fileName
  cases p with
  | nil => exact absurd rfl h
  | cons a t =>
    rw [List.getLastD_eq_getLast?, List.getLast?_append_of_ne_nil,
      ← List.getLastD_eq_getLast?]
    simp

theorem fileName_concat (l : FPath) (y : String) : fileName (l ++ [y]) = y := by
  unfold fileName
  rw [List.getLastD_concat]

theorem suffix_eq_of_length {l1 l2 L : List Char} (h1 : l1 <:+ L) (h2 : l2 <:+ L)
    (h : l1.length = l2.length) : l1 = l2 := by
  rw [List.suffix_iff_eq_drop] at h1 h2
  rw [h1, h2, h]

theorem isGffName_append_fna (x : String) : isGffName (x ++ ".fna") = false := by
  rw [← Bool.not_eq_true]
  unfold isGffName
  simp only [decide_eq_true_eq]
  intro h
  have h2 : ".fna".data <:+ (x ++ ".fna").data := by
    rw [String.data_append]
    exact List.suffix_append _ _
  have h3 := suffix_eq_of_length h h2 (by decide)
  exact absurd h3 (by decide)

theorem isGffName_append_gff (x : String) : isGffName (x ++ ".gff") = true := by
  unfold isGffName
  simp only [decide_eq_true_eq]
  rw [String.data_append]
  exact List.suffix_append _ _

theorem isCdsName_eq (n : String) (h : isCdsName n = true) : n = "cds_from_genomic.fna" := by
  simpa [isCdsName] using h

theorem isCdsName_not_gff (n : String) (h : isCdsName n = true) : isGffName n = false := by
  rw [isCdsName_eq n h]
  decide

theorem getLast?_cons_ne {α : Type} (a : α) (l : List α) (h : l ≠ []) :
    (a :: l).getLast? = l.getLast? := by
  obtain ⟨x, hx⟩ := Option.isSome_iff_exists.mp (List.getLast?_isSome.mpr h)
  rw [List.getLast?_cons, hx]
  rfl

/-! ## extractAll lemmas -/

theorem mem_paths_extractFold (d : FPath) (q : FPath) :
    ∀ (es : List ZipEntry) (fs : FS),
      q ∈ (es.foldl (fun acc e =>
          (acc.mkdir (d ++ e.path.dropLast)).insertFile (d ++ e.path) e.content) fs).paths ↔
        (∃ e ∈ es, q = d ++ e.path) ∨ q ∈ fs.paths := by
  intro es
  induction es with
  | nil => intro fs; simp
  | cons e es ih =>
    intro fs
    rw [List.foldl_cons, ih, mem_paths_insertFile, paths_mkdir]
    constructor
    · rintro (⟨e2, he2, rfl⟩ | (rfl | hq))
      · exact Or.inl ⟨e2, List.mem_cons_of_mem _ he2, rfl⟩
      · exact Or.inl ⟨e, List.mem_cons_self _ _, rfl⟩
      · exact Or.inr hq
    · rintro (⟨e2, he2, rfl⟩ | hq)
      · rcases List.mem_cons.mp he2 with rfl | h2
        · exact Or.inr (Or.inl rfl)
        · exact Or.inl ⟨e2, h2, rfl⟩
      · exact Or.inr (Or.inr hq)

theorem mem_paths_extractAll (fs : FS) (d : FPath) (es : List ZipEntry) (q : FPath) :
    q ∈ (extractAll fs d es).paths ↔ (∃ e ∈ es, q = d ++ e.path) ∨ q ∈ fs.paths := by
  unfold extractAll
  rw [mem_paths_extractFold, paths_mkdir]

theorem countAt_extractFold_le (d : FPath) :
    ∀ (es : List ZipEntry) (fs : FS),
      (∀ q, isUnder d q = true → fs.countAt q ≤ 1) →
      ∀ q, isUnder d q = true →
        (es.foldl (fun acc e =>
          (acc.mkdir (d ++ e.path.dropLast)).insertFile (d ++ e.path) e.content) fs).countAt q ≤ 1 := by
  intro es
  induction es with
  | nil => intro fs hfs; exact hfs
  | cons e es ih =>
    intro fs hfs q hq
    rw [List.foldl_cons]
    apply ih _ _ q hq
    intro r hr
    by_cases hre : r = d ++ e.path
    · subst hre
      rw [countAt_insertFile_self]
    · rw [countAt_insertFile_ne _ _ _ _ hre, countAt_mkdir]
      exact hfs r hr

theorem countAt_extractAll_le (fs : FS) (d : FPath) (es : List ZipEntry)
    (hfs : ∀ q, isUnder d q = true → fs.countAt q ≤ 1) :
    ∀ q, isUnder d q = true → (extractAll fs d es).countAt q ≤ 1 := by
  unfold extractAll
  apply countAt_extractFold_le
  intro q hq
  rw [countAt_mkdir]
  exact hfs q hq

theorem lookupFile_extractFold_miss (d : FPath) (q : FPath) :
    ∀ (es : List ZipEntry) (fs : FS),
      es.filter (fun e => d ++ e.path == q) = [] →
      (es.foldl (fun acc e =>
          (acc.mkdir (d ++ e.path.dropLast)).insertFile (d ++ e.path) e.content) fs).lookupFile q =
        fs.lookupFile q := by
  intro es
  induction es with
  | nil => intro fs _; rfl
  | cons e es ih =>
    intro fs h
    have he : ¬ ((d ++ e.path) = q) := by
      intro he
      rw [List.filter_cons_of_pos (by simpa using he)] at h
      exact List.noConfusion h
    rw [List.filter_cons_of_neg (by simpa using he)] at h
    rw [List.foldl_cons, ih _ h,
      lookupFile_insertFile_ne _ _ _ _ (fun hqe => he hqe.symm), lookupFile_mkdir]

theorem lookupFile_extractFold_hit (d : FPath) (q : FPath) (e2 : ZipEntry) :
    ∀ (es : List ZipEntry) (fs : FS),
      (es.filter (fun e => d ++ e.path == q)).getLast? = some e2 →
      (es.foldl (fun acc e =>
          (acc.mkdir (d ++ e.path.dropLast)).insertFile (d ++ e.path) e.content) fs).lookupFile q =
        some e2.content := by
  intro es
  induction es with
  | nil => intro fs h; exact absurd h (by simp)
  | cons e es ih =>
    intro fs h
    rw [List.foldl_cons]
    by_cases hrest : es.filter (fun e => d ++ e.path == q) = []
    · by_cases he : (d ++ e.path) = q
      · rw [List.filter_cons_of_pos (by simpa using he), hrest] at h
        have he2 : e2 = e := by
          have : some e = some e2 := h
          exact (Option.some.inj this).symm
        subst he2
        rw [lookupFile_extractFold_miss d q es _ hrest]
        subst he
        rw [lookupFile_insertFile_self]
      · rw [List.filter_cons_of_neg (by simpa using he), hrest] at h
        exact absurd h (by simp)
    · have hlast : (es.filter (fun e => d ++ e.path == q)).getLast? = some e2 := by
        by_cases he : (d ++ e.path) = q
        · rw [List.filter_cons_of_pos (by simpa using he), getLast?_cons_ne _ _ hrest] at h
          exact h
        · rw [List.filter_cons_of_neg (by simpa using he)] at h
          exact h
      exact ih _ hlast

theorem lookupFile_extractAll_hit (fs : FS) (d : FPath) (es : List ZipEntry) (q : FPath)
    (e2 : ZipEntry) (h : (es.filter (fun e => d ++ e.path == q)).getLast? = some e2) :
    (extractAll fs d es).lookupFile q = some e2.content := by
  unfold extractAll
  exact lookupFile_extractFold_hit d q e2 es _ h

theorem dirs_extractFold_mono (d : FPath) (q : FPath) :
    ∀ (es : List ZipEntry) (fs : FS), q ∈ fs.dirs →
      q ∈ (es.foldl (fun acc e =>
        (acc.mkdir (d ++ e.path.dropLast)).insertFile (d ++ e.path) e.content) fs).dirs := by
  intro es
  induction es with
  | nil => intro fs h; exact h
  | cons e es ih =>
    intro fs h
    rw [List.foldl_cons]
    apply ih
    rw [dirs_insertFile, mem_dirs_mkdir]
    exact Or.inr h

theorem dirs_extractAll_mono (fs : FS) (d : FPath) (es : List ZipEntry) (q : FPath)
    (h : q ∈ fs.dirs) : q ∈ (extractAll fs d es).dirs := by
  unfold extractAll
  apply dirs_extractFold_mono
  rw [mem_dirs_mkdir]
  exact Or.inr h

/-! ## rglob lemmas -/

theorem mem_rglob (fs : FS) (d : FPath) (pat : String → Bool) (p : FPath) :
    p ∈ fs.rglob d pat ↔
      p ∈ fs.paths ∧ isUnder d p = true ∧ pat (fileName p) = true := by
  unfold FS.rglob
  rw [List.mem_filter]
  simp only [Bool.and_eq_true]
  exact Iff.rfl

theorem nodup_filter_map_fst (pred : FPath → Bool) :
    ∀ l : List (FPath × String),
      (∀ q, pred q = true → (l.filter (fun e => e.1 == q)).length ≤ 1) →
      ((l.map (fun e => e.1)).filter pred).Nodup := by
  intro l
  induction l with
  | nil => intro _; simp
  | cons a t ih =>
    intro h
    have ht : ∀ q, pred q = true → (t.filter (fun e => e.1 == q)).length ≤ 1 := by
      intro q hq
      refine le_trans ?_ (h q hq)
      by_cases ha : (a.1 == q) = true
      · rw [List.filter_cons_of_pos (p := fun e : FPath × String => e.1 == q) ha]
        exact Nat.le_succ _
      · rw [List.filter_cons_of_neg (p := fun e : FPath × String => e.1 == q)
          (by simpa using ha)]
    rw [List.map_cons]
    by_cases hp : pred a.1 = true
    · rw [List.filter_cons_of_pos hp, List.nodup_cons]
      refine ⟨?_, ih ht⟩
      intro hmem
      obtain ⟨e, he, heq⟩ := List.mem_map.mp (List.mem_of_mem_filter hmem)
      have h2 := h a.1 hp
      rw [List.filter_cons_of_pos (p := fun e : FPath × String => e.1 == a.1)
        (by simp)] at h2
      have h3 : e ∈ t.filter (fun e2 => e2.1 == a.1) :=
        List.mem_filter.mpr ⟨he, by simp [heq]⟩
      have h4 : 0 < (t.filter (fun e2 => e2.1 == a.1)).length :=
        List.length_pos.mpr (List.ne_nil_of_mem h3)
      simp only [List.length_cons] at h2
      omega
    · rw [List.filter_cons_of_neg (by simpa using hp)]
      exact ih ht

theorem rglob_nodup (fs : FS) (d : FPath) (pat : String → Bool)
    (h : ∀ q, isUnder d q = true → fs.countAt q ≤ 1) : (fs.rglob d pat).Nodup := by
  unfold FS.rglob
  apply nodup_filter_map_fst
  intro q hq
  exact h q (Bool.and_eq_true .. ▸ hq).1

/-! ## Lemmas about the sequence of moves -/

theorem foldMove_paths_subset (f : FPath → FPath) (q : FPath) :
    ∀ (srcs : List FPath) (fs0 : FS),
      q ∈ (srcs.foldl (fun acc p => acc.move p (f p)) fs0).paths →
      (∃ p ∈ srcs, q = f p) ∨ q ∈ fs0.paths := by
  intro srcs
  induction srcs with
  | nil => intro fs0 hq; exact Or.inr hq
  | cons a t ih =>
    intro fs0 hq
    rw [List.foldl_cons] at hq
    rcases ih _ hq with ⟨p, hp, rfl⟩ | hmem
    · exact Or.inl ⟨p, List.mem_cons_of_mem _ hp, rfl⟩
    · rcases (mem_paths_move _ _ _ _).mp hmem with rfl | ⟨h1, -⟩
      · exact Or.inl ⟨a, List.mem_cons_self _ _, rfl⟩
      · exact Or.inr h1

theorem foldMove_paths_mono (f : FPath → FPath) (q : FPath) :
    ∀ (srcs : List FPath) (fs0 : FS), (∀ p ∈ srcs, q ≠ p) → q ∈ fs0.paths →
      q ∈ (srcs.foldl (fun acc p => acc.move p (f p)) fs0).paths := by
  intro srcs
  induction srcs with
  | nil => intro fs0 _ hq; exact hq
  | cons a t ih =>
    intro fs0 hne hq
    rw [List.foldl_cons]
    apply ih _ (fun p hp => hne p (List.mem_cons_of_mem _ hp))
    rw [mem_paths_move]
    exact Or.inr ⟨hq, hne a (List.mem_cons_self _ _)⟩

theorem foldMove_paths_dest (f : FPath → FPath) (p : FPath) :
    ∀ (srcs : List FPath) (fs0 : FS),
      (∀ r ∈ srcs, ∀ r2 ∈ srcs, f r ≠ r2) → p ∈ srcs →
      f p ∈ (srcs.foldl (fun acc r => acc.move r (f r)) fs0).paths := by
  intro srcs
  induction srcs with
  | nil => intro fs0 _ hp; exact absurd hp (List.not_mem_nil p)
  | cons a t ih =>
    intro fs0 hd hp
    rw [List.foldl_cons]
    rcases List.mem_cons.mp hp with rfl | hpt
    · apply foldMove_paths_mono
      · intro r hr
        exact hd p (List.mem_cons_self _ _) r (List.mem_cons_of_mem _ hr)
      · rw [mem_paths_move]
        exact Or.inl rfl
    · exact ih _ (fun r hr r2 hr2 =>
        hd r (List.mem_cons_of_mem _ hr) r2 (List.mem_cons_of_mem _ hr2)) hpt

theorem foldMove_paths_invariant (f : FPath → FPath) (P : FPath → Bool) (q : FPath)
    (hq : P q = true) :
    ∀ (srcs : List FPath) (fs0 : FS),
      (∀ p ∈ srcs, P p = false) → (∀ p ∈ srcs, P (f p) = false) →
      (q ∈ (srcs.foldl (fun acc p => acc.move p (f p)) fs0).paths ↔ q ∈ fs0.paths) := by
  intro srcs
  induction srcs with
  | nil => intro fs0 _ _; exact Iff.rfl
  | cons a t ih =>
    intro fs0 hsrc hdst
    rw [List.foldl_cons, ih _ (fun p hp => hsrc p (List.mem_cons_of_mem _ hp))
      (fun p hp => hdst p (List.mem_cons_of_mem _ hp)), mem_paths_move]
    constructor
    · rintro (rfl | ⟨h1, -⟩)
      · exact absurd hq (by simp [hdst a (List.mem_cons_self _ _)])
      · exact h1
    · intro h1
      refine Or.inr ⟨h1, ?_⟩
      intro h2
      rw [h2] at hq
      rw [hsrc a (List.mem_cons_self _ _)] at hq
      exact Bool.false_ne_true hq

/-! ## Characterizing the matched-file lists of the organize step -/

/-- When the scratch directory is initially empty, the coding-sequence
matches are exactly the archive entries named `cds_from_genomic.fna`. -/
theorem mem_org_cds_files (family : String) (es : List ZipEntry) (fs : FS) (p : FPath)
    (hclean : ∀ q ∈ fs.paths, isUnder (tempPath family) q = false) :
    p ∈ org_cds_files family es fs ↔
      ∃ e ∈ es, e.path ≠ [] ∧ isCdsName (fileName e.path) = true ∧
        p = tempPath family ++ e.path := by
  unfold org_cds_files org_temp_fs
  rw [mem_rglob]
  constructor
  · rintro ⟨hmem, hun, hpat⟩
    rcases (mem_paths_extractAll _ _ _ _).mp hmem with ⟨e, he, rfl⟩ | hfs
    · have hne : e.path ≠ [] := by
        intro h0
        rw [h0, List.append_nil, isUnder_iff] at hun
        exact absurd hun.2 (lt_irrefl _)
      exact ⟨e, he, hne, by rwa [fileName_append _ _ hne] at hpat, rfl⟩
    · rw [hclean _ hfs] at hun
      exact absurd hun (by simp)
  · rintro ⟨e, he, hne, hpat, rfl⟩
    refine ⟨(mem_paths_extractAll _ _ _ _).mpr (Or.inl ⟨e, he, rfl⟩),
      (isUnder_append_right _ _).mpr hne, ?_⟩
    rwa [fileName_append _ _ hne]

/-- The coding-sequence moves neither consume nor produce `*.gff` matches
below the scratch directory, so the gene-feature matches (scanned after
those moves) are exactly the archive entries whose name ends in ".gff". -/
theorem mem_org_gff_files (s : RefSeqDataDownloader) (family : String)
    (es : List ZipEntry) (fs : FS) (p : FPath)
    (hclean : ∀ q ∈ fs.paths, isUnder (tempPath family) q = false) :
    p ∈ org_gff_files s family es fs ↔
      ∃ e ∈ es, e.path ≠ [] ∧ isGffName (fileName e.path) = true ∧
        p = tempPath family ++ e.path := by
  unfold org_gff_files org_fs_after_cds
  rw [mem_rglob]
  have hP : ∀ q, (isUnder (tempPath family) q && isGffName (fileName q)) = true →
      (q ∈ ((org_cds_files family es fs).foldl
          (fun acc r => acc.move r (cdsDest s family r)) (org_temp_fs family es fs)).paths ↔
        q ∈ (org_temp_fs family es fs).paths) := by
    intro q hq
    apply foldMove_paths_invariant (cdsDest s family)
      (fun r => isUnder (tempPath family) r && isGffName (fileName r)) q hq
    · intro r hr
      obtain ⟨e, he, hne, hcds, rfl⟩ := (mem_org_cds_files family es fs r hclean).mp hr
      rw [fileName_append _ _ hne, isCdsName_not_gff _ hcds, Bool.and_false]
    · intro r _
      unfold cdsDest
      rw [fileName_concat, isGffName_append_fna, Bool.and_false]
  constructor
  · rintro ⟨hmem, hun, hpat⟩
    rw [hP p (by rw [hun, hpat]; rfl)] at hmem
    unfold org_temp_fs at hmem
    rcases (mem_paths_extractAll _ _ _ _).mp hmem with ⟨e, he, rfl⟩ | hfs
    · have hne : e.path ≠ [] := by
        intro h0
        rw [h0, List.append_nil, isUnder_iff] at hun
        exact absurd hun.2 (lt_irrefl _)
      exact ⟨e, he, hne, by rwa [fileName_append _ _ hne] at hpat, rfl⟩
    · rw [hclean _ hfs] at hun
      exact absurd hun (by simp)
  · rintro ⟨e, he, hne, hpat, rfl⟩
    have hun : isUnder (tempPath family) (tempPath family ++ e.path) = true :=
      (isUnder_append_right _ _).mpr hne
    have hpat2 : isGffName (fileName (tempPath family ++ e.path)) = true := by
      rwa [fileName_append _ _ hne]
    refine ⟨?_, hun, hpat2⟩
    rw [hP _ (by rw [hun, hpat2]; rfl)]
    unfold org_temp_fs
    exact (mem_paths_extractAll _ _ _ _).mpr (Or.inl ⟨e, he, rfl⟩)

/-- The organize step moved at least one file iff the archive holds an entry
matching either pattern. -/
theorem org_total_pos_iff (s : RefSeqDataDownloader) (family : String)
    (es : List ZipEntry) (fs : FS)
    (hclean : ∀ q ∈ fs.paths, isUnder (tempPath family) q = false) :
    0 < org_total s family es fs ↔
      ∃ e ∈ es, e.path ≠ [] ∧
        (isCdsName (fileName e.path) = true ∨ isGffName (fileName e.path) = true) := by
  unfold org_total
  constructor
  · intro h
    have hne : org_cds_files family es fs ≠ [] ∨ org_gff_files s family es fs ≠ [] := by
      by_contra hcon
      push_neg at hcon
      rw [hcon.1, hcon.2] at h
      simp at h
    rcases hne with h1 | h1
    · obtain ⟨p, hp⟩ := List.exists_mem_of_ne_nil _ h1
      obtain ⟨e, he, hn, hc, rfl⟩ := (mem_org_cds_files family es fs _ hclean).mp hp
      exact ⟨e, he, hn, Or.inl hc⟩
    · obtain ⟨p, hp⟩ := List.exists_mem_of_ne_nil _ h1
      obtain ⟨e, he, hn, hg, rfl⟩ := (mem_org_gff_files s family es fs _ hclean).mp hp
      exact ⟨e, he, hn, Or.inr hg⟩
  · rintro ⟨e, he, hn, hc | hg⟩
    · have hmem : tempPath family ++ e.path ∈ org_cds_files family es fs :=
        (mem_org_cds_files family es fs _ hclean).mpr ⟨e, he, hn, hc, rfl⟩
      have := List.length_pos.mpr (List.ne_nil_of_mem hmem)
      omega
    · have hmem : tempPath family ++ e.path ∈ org_gff_files s family es fs :=
        (mem_org_gff_files s family es fs _ hclean).mpr ⟨e, he, hn, hg, rfl⟩
      have := List.length_pos.mpr (List.ne_nil_of_mem hmem)
      omega

/-- C2: on the no-exception path (archive present and readable, fresh
scratch directory), `extract_and_organize_files` returns `True` iff the
total number of matched-and-moved files is positive — i.e. iff the archive
holds some entry matching either pattern; zero matches yields a `False`
return together with the warning (and the warning fires exactly in that
case), not an exception. -/
theorem extract_organize_ret_iff (s : RefSeqDataDownloader)
    (zip_filename family : String) (es : List ZipEntry) (fs : FS)
    (hzip : fs.fileExists [zip_filename] = true)
    (hclean : ∀ q ∈ fs.paths, isUnder (tempPath family) q = false) :
    ((s.extract_and_organize_files zip_filename family (.entries es) fs).ret = true ↔
      ∃ e ∈ es, e.path ≠ [] ∧
        (isCdsName (fileName e.path) = true ∨ isGffName (fileName e.path) = true)) ∧
    ((s.extract_and_organize_files zip_filename family (.entries es) fs).warnedNoFiles = true ↔
      (s.extract_and_organize_files zip_filename family (.entries es) fs).ret = false) ∧
    (s.extract_and_organize_files zip_filename family (.entries es) fs).exceptionCaught =
      false ∧
    (s.extract_and_organize_files zip_filename family (.entries es) fs).missingZipError =
      false := by
  rw [extract_entries_eq s zip_filename family es fs hzip]
  refine ⟨?_, ?_, rfl, rfl⟩
  · simp only [decide_eq_true_eq, gt_iff_lt]
    exact org_total_pos_iff s family es fs hclean
  · simp only [decide_eq_true_eq, decide_eq_false_iff_not, gt_iff_lt]
    omega

/-! ## Exact shape of the extracted tree and content of moved files -/

theorem filter_ne_of_not_mem_paths (fs : FS) (p : FPath) (h : p ∉ fs.paths) :
    fs.files.filter (fun e => !(e.1 == p)) = fs.files := by
  apply List.filter_eq_self.mpr
  intro e he
  simp only [Bool.not_eq_eq_eq_not, Bool.not_true, beq_eq_false_iff_ne, ne_eq]
  intro hq
  exact h ((mem_paths fs p).mpr ⟨e.2, by rw [← hq]; exact he⟩)

theorem files_extractFold_clean (d : FPath) :
    ∀ (es : List ZipEntry) (fs : FS),
      (∀ e ∈ es, (d ++ e.path) ∉ fs.paths) → ((es.map (fun e => e.path)).Nodup) →
      (es.foldl (fun acc e =>
          (acc.mkdir (d ++ e.path.dropLast)).insertFile (d ++ e.path) e.content) fs).files =
        fs.files ++ es.map (fun e => (d ++ e.path, e.content)) := by
  intro es
  induction es with
  | nil => intro fs _ _; simp
  | cons e es ih =>
    intro fs hnm hnd
    rw [List.map_cons, List.nodup_cons] at hnd
    rw [List.foldl_cons, ih]
    · have hfiles : ((fs.mkdir (d ++ e.path.dropLast)).insertFile
          (d ++ e.path) e.content).files = fs.files ++ [(d ++ e.path, e.content)] := by
        unfold FS.insertFile
        simp only [files_mkdir]
        rw [filter_ne_of_not_mem_paths fs _ (hnm e (List.mem_cons_self _ _))]
      rw [hfiles, List.map_cons, List.append_assoc]
      rfl
    · intro e2 he2
      rw [mem_paths_insertFile, paths_mkdir]
      rintro (heq | hmem)
      · have : e2.path = e.path := List.append_cancel_left heq
        exact hnd.1 (this ▸ List.mem_map.mpr ⟨e2, he2, rfl⟩)
      · exact hnm e2 (List.mem_cons_of_mem _ he2) hmem
    · exact hnd.2

theorem files_extractAll_clean (fs : FS) (d : FPath) (es : List ZipEntry)
    (hnm : ∀ e ∈ es, (d ++ e.path) ∉ fs.paths) (hnd : (es.map (fun e => e.path)).Nodup) :
    (extractAll fs d es).files = fs.files ++ es.map (fun e => (d ++ e.path, e.content)) := by
  unfold extractAll
  rw [files_extractFold_clean d es _ _ hnd, files_mkdir]
  intro e he
  rw [paths_mkdir]
  exact hnm e he

/-- With a fresh scratch directory and duplicate-free archive paths, the
coding-sequence match list is exactly the matching archive entries, in
archive order, at their extracted locations. -/
theorem org_cds_files_eq (family : String) (es : List ZipEntry) (fs : FS)
    (hclean : ∀ q ∈ fs.paths, isUnder (tempPath family) q = false)
    (hne : ∀ e ∈ es, e.path ≠ []) (hnd : (es.map (fun e => e.path)).Nodup) :
    org_cds_files family es fs =
      (es.filter (fun e => isCdsName (fileName e.path))).map
        (fun e => tempPath family ++ e.path) := by
  unfold org_cds_files org_temp_fs FS.rglob
  rw [files_extractAll_clean fs (tempPath family) es ?hnm hnd]
  case hnm =>
    intro e he hmem
    have hu : isUnder (tempPath family) (tempPath family ++ e.path) = true :=
      (isUnder_append_right _ _).mpr (hne e he)
    rw [hclean _ hmem] at hu
    exact Bool.noConfusion hu
  rw [List.map_append, List.filter_append]
  have h1 : (fs.files.map (fun e => e.1)).filter
      (fun p => isUnder (tempPath family) p && isCdsName (fileName p)) = [] := by
    rw [List.filter_eq_nil_iff]
    intro p hp
    simp [hclean p hp]
  rw [h1, List.nil_append, List.map_map, List.filter_map]
  congr 1
  apply List.filter_congr
  intro e he
  have hu : isUnder (tempPath family) (tempPath family ++ e.path) = true :=
    (isUnder_append_right _ _).mpr (hne e he)
  simp only [Function.comp]
  rw [fileName_append _ _ (hne e he), hu, Bool.true_and]

/-- A duplicate-free archive has exactly one entry at a given extracted
path. -/
theorem filter_key_unique (d : FPath) :
    ∀ (es : List ZipEntry), (es.map (fun e => e.path)).Nodup →
      ∀ el ∈ es, es.filter (fun e => d ++ e.path == d ++ el.path) = [el] := by
  intro es
  induction es with
  | nil => intro _ el hel; exact absurd hel (List.not_mem_nil el)
  | cons a t ih =>
    intro hnd el hel
    rw [List.map_cons, List.nodup_cons] at hnd
    rcases List.mem_cons.mp hel with rfl | helt
    · rw [List.filter_cons_of_pos (by simp)]
      have ht : t.filter (fun e => d ++ e.path == d ++ el.path) = [] := by
        rw [List.filter_eq_nil_iff]
        intro e he hbeq
        have heq : e.path = el.path :=
          List.append_cancel_left (show d ++ e.path = d ++ el.path by simpa using hbeq)
        exact hnd.1 (heq ▸ List.mem_map.mpr ⟨e, he, rfl⟩)
      rw [ht]
    · rw [List.filter_cons_of_neg ?hna, ih hnd.2 el helt]
      case hna =>
        simp only [beq_iff_eq, Bool.not_eq_true]
        intro hbeq
        have heq : a.path = el.path :=
          List.append_cancel_left (show d ++ a.path = d ++ el.path from hbeq)
        exact absurd (heq ▸ List.mem_map.mpr ⟨el, helt, rfl⟩) hnd.1

theorem foldMove_lookup_pres (f : FPath → FPath) (q : FPath) :
    ∀ (srcs : List FPath) (fs0 : FS), (∀ p ∈ srcs, p ≠ q ∧ f p ≠ q) →
      (srcs.foldl (fun acc p => acc.move p (f p)) fs0).lookupFile q = fs0.lookupFile q := by
  intro srcs
  induction srcs with
  | nil => intro fs0 _; rfl
  | cons a t ih =>
    intro fs0 h
    rw [List.foldl_cons, ih _ (fun p hp => h p (List.mem_cons_of_mem _ hp)),
      lookupFile_move_ne _ _ _ _ (fun hq => (h a (List.mem_cons_self _ _)).2 hq.symm)
        (fun hq => (h a (List.mem_cons_self _ _)).1 hq.symm)]

theorem foldMove_countAt_pres (f : FPath → FPath) (q : FPath) :
    ∀ (srcs : List FPath) (fs0 : FS), (∀ p ∈ srcs, p ≠ q ∧ f p ≠ q) →
      (srcs.foldl (fun acc p => acc.move p (f p)) fs0).countAt q = fs0.countAt q := by
  intro srcs
  induction srcs with
  | nil => intro fs0 _; rfl
  | cons a t ih =>
    intro fs0 h
    rw [List.foldl_cons, ih _ (fun p hp => h p (List.mem_cons_of_mem _ hp)),
      countAt_move_ne _ _ _ _ (fun hq => (h a (List.mem_cons_self _ _)).2 hq.symm)
        (fun hq => (h a (List.mem_cons_self _ _)).1 hq.symm)]

theorem mem_of_getLast?_eq {α : Type} {l : List α} {x : α} (h : l.getLast? = some x) :
    x ∈ l := by
  induction l with
  | nil => exact absurd h (by simp)
  | cons a t ih =>
    by_cases ht : t = []
    · subst ht
      have h2 : some a = some x := h
      rw [← Option.some.inj h2]
      exact List.mem_cons_self a []
    · rw [getLast?_cons_ne a t ht] at h
      exact List.mem_cons_of_mem _ (ih h)

theorem foldMove_lookup_hit (f : FPath → FPath) (q : FPath) (plast : FPath) :
    ∀ (srcs : List FPath) (fs0 : FS), srcs.Nodup →
      (∀ r ∈ srcs, ∀ r2 ∈ srcs, f r ≠ r2) →
      (srcs.filter (fun p => f p == q)).getLast? = some plast →
      (srcs.foldl (fun acc p => acc.move p (f p)) fs0).lookupFile q =
        some ((fs0.lookupFile plast).getD "") := by
  intro srcs
  induction srcs with
  | nil => intro fs0 _ _ h; exact absurd h (by simp)
  | cons a t ih =>
    intro fs0 hnd hD2 h
    rw [List.nodup_cons] at hnd
    rw [List.foldl_cons]
    by_cases hrest : t.filter (fun p => f p == q) = []
    · by_cases ha : (f a) = q
      · rw [List.filter_cons_of_pos (by simpa using ha), hrest] at h
        have hpl : a = plast := by
          have h2 : some a = some plast := h
          exact Option.some.inj h2
        have hmiss : ∀ p ∈ t, p ≠ q ∧ f p ≠ q := by
          intro p hp
          constructor
          · intro hpq
            exact hD2 a (List.mem_cons_self _ _) p (List.mem_cons_of_mem _ hp)
              (by rw [ha, hpq])
          · intro hfq
            have hin : p ∈ t.filter (fun p => f p == q) :=
              List.mem_filter.mpr ⟨hp, by simp [hfq]⟩
            rw [hrest] at hin
            exact absurd hin (List.not_mem_nil p)
        rw [foldMove_lookup_pres f q t _ hmiss, ← ha, lookupFile_move_dest, hpl]
      · rw [List.filter_cons_of_neg (by simpa using ha), hrest] at h
        exact absurd h (by simp)
    · have hlast : (t.filter (fun p => f p == q)).getLast? = some plast := by
        by_cases ha : (f a) = q
        · rw [List.filter_cons_of_pos (by simpa using ha),
            getLast?_cons_ne _ _ hrest] at h
          exact h
        · rw [List.filter_cons_of_neg (by simpa using ha)] at h
          exact h
      have hpl_mem : plast ∈ t := List.mem_of_mem_filter (mem_of_getLast?_eq hlast)
      rw [ih _ hnd.2 (fun r hr r2 hr2 =>
        hD2 r (List.mem_cons_of_mem _ hr) r2 (List.mem_cons_of_mem _ hr2)) hlast]
      rw [lookupFile_move_ne _ _ _ _
        (fun hq =>
          hD2 a (List.mem_cons_self _ _) plast (List.mem_cons_of_mem _ hpl_mem) hq.symm)
        (fun hq => hnd.1 (by rw [← hq]; exact hpl_mem))]

theorem foldMove_countAt_hit (f : FPath → FPath) (q : FPath) :
    ∀ (srcs : List FPath) (fs0 : FS),
      (∀ r ∈ srcs, ∀ r2 ∈ srcs, f r ≠ r2) →
      srcs.filter (fun p => f p == q) ≠ [] →
      (srcs.foldl (fun acc p => acc.move p (f p)) fs0).countAt q = 1 := by
  intro srcs
  induction srcs with
  | nil => intro fs0 _ h; exact absurd rfl h
  | cons a t ih =>
    intro fs0 hD2 h
    rw [List.foldl_cons]
    by_cases hrest : t.filter (fun p => f p == q) = []
    · by_cases ha : (f a) = q
      · have hmiss : ∀ p ∈ t, p ≠ q ∧ f p ≠ q := by
          intro p hp
          constructor
          · intro hpq
            exact hD2 a (List.mem_cons_self _ _) p (List.mem_cons_of_mem _ hp)
              (by rw [ha, hpq])
          · intro hfq
            have : p ∈ t.filter (fun p => f p == q) :=
              List.mem_filter.mpr ⟨hp, by simp [hfq]⟩
            rw [hrest] at this
            exact absurd this (List.not_mem_nil p)
        rw [foldMove_countAt_pres f q t _ hmiss, ← ha, countAt_move_dest]
      · rw [List.filter_cons_of_neg (by simpa using ha), hrest] at h
        exact absurd rfl h
    · exact ih _ (fun r hr r2 hr2 =>
        hD2 r (List.mem_cons_of_mem _ hr) r2 (List.mem_cons_of_mem _ hr2)) hrest

theorem cds_gff_dest_ne (s : RefSeqDataDownloader) (n y : String) :
    s.cds_dir ++ [n] ≠ s.gff_dir ++ [y] := by
  intro h
  rw [RefSeqDataDownloader.cds_dir, RefSeqDataDownloader.gff_dir,
    List.append_assoc, List.append_assoc] at h
  have h2 := List.append_cancel_left h
  exact absurd (List.head_eq_of_cons_eq h2) (by decide)

/-! ## Separation lemmas between the scratch tree and the output tree -/

theorem singleton_prefix_head {α : Type} (a : α) (l : List α) (h : [a] <+: l) :
    l.head? = some a := by
  obtain ⟨r, hr⟩ := h
  rw [← hr]
  rfl

theorem not_under_temp_append (family : String) (o : FPath) (ho : o ≠ [])
    (hroot : o.head? ≠ some ("temp_" ++ family)) (r : FPath) :
    isUnder (tempPath family) (o ++ r) = false := by
  rw [isUnder_false_iff]
  rintro ⟨hpre, -⟩
  have hh := singleton_prefix_head ("temp_" ++ family) (o ++ r) hpre
  rw [List.head?_append_of_ne_nil] at hh
  · exact hroot hh
  · exact ho

theorem not_under_temp_cdsdir (s : RefSeqDataDownloader) (family : String)
    (hout : s.output_dir ≠ []) (hroot : s.output_dir.head? ≠ some ("temp_" ++ family))
    (y : String) : isUnder (tempPath family) (s.cds_dir ++ [y]) = false := by
  have h := not_under_temp_append family s.output_dir hout hroot ["cds_files", y]
  rw [RefSeqDataDownloader.cds_dir, List.append_assoc]
  exact h

theorem not_under_temp_gffdir (s : RefSeqDataDownloader) (family : String)
    (hout : s.output_dir ≠ []) (hroot : s.output_dir.head? ≠ some ("temp_" ++ family))
    (y : String) : isUnder (tempPath family) (s.gff_dir ++ [y]) = false := by
  have h := not_under_temp_append family s.output_dir hout hroot ["gff_files", y]
  rw [RefSeqDataDownloader.gff_dir, List.append_assoc]
  exact h

theorem not_under_cds_gffdest (s : RefSeqDataDownloader) (y : String) :
    isUnder s.cds_dir (s.gff_dir ++ [y]) = false := by
  rw [isUnder_false_iff]
  rintro ⟨hpre, -⟩
  rw [RefSeqDataDownloader.cds_dir, RefSeqDataDownloader.gff_dir,
    List.append_assoc, List.prefix_append_right_inj] at hpre
  have hh : some "gff_files" = some "cds_files" := singleton_prefix_head "cds_files" _ hpre
  exact absurd (Option.some.inj hh) (by decide)

theorem not_under_gff_cdsdest (s : RefSeqDataDownloader) (y : String) :
    isUnder s.gff_dir (s.cds_dir ++ [y]) = false := by
  rw [isUnder_false_iff]
  rintro ⟨hpre, -⟩
  rw [RefSeqDataDownloader.cds_dir, RefSeqDataDownloader.gff_dir,
    List.append_assoc, List.prefix_append_right_inj] at hpre
  have hh : some "cds_files" = some "gff_files" := singleton_prefix_head "gff_files" _ hpre
  exact absurd (Option.some.inj hh) (by decide)

theorem mem_paths_org_final (s : RefSeqDataDownloader) (zip_filename family : String)
    (es : List ZipEntry) (fs : FS) (q : FPath) :
    q ∈ (org_final_fs s zip_filename family es fs).paths ↔
      q ∈ (org_fs_after_gff s family es fs).paths ∧
        isUnder (tempPath family) q = false ∧ q ≠ [zip_filename] := by
  unfold org_final_fs
  rw [mem_paths_removeFile, mem_paths_rmtree]
  tauto

/-- C1: under a standard layout (archive present, fresh scratch directory,
output tree disjoint from the scratch tree), the files in the
coding-sequence output directory after `extract_and_organize_files` are
exactly the destinations `cds_dir / {parent.name}_{family}.fna` of the
matched `cds_from_genomic.fna` entries, and the files in the gene-feature
output directory are exactly the destinations
`gff_dir / {parent.name}_{family}.gff` of the matched `*.gff` entries — the
species identifier being the name of the file's immediate parent directory
in the extracted tree, literally, including intermediate subdirectories. -/
theorem extract_organize_moves_matches (s : RefSeqDataDownloader)
    (zip_filename family : String) (es : List ZipEntry) (fs : FS)
    (hzip : fs.fileExists [zip_filename] = true)
    (hclean : ∀ q ∈ fs.paths, isUnder (tempPath family) q = false)
    (hfresh : ∀ q ∈ fs.paths, isUnder s.cds_dir q = false ∧ isUnder s.gff_dir q = false)
    (hout : s.output_dir ≠ [])
    (hroot : s.output_dir.head? ≠ some ("temp_" ++ family)) :
    (∀ q : FPath,
      (q ∈ (s.extract_and_organize_files zip_filename family (.entries es) fs).fs.paths ∧
          isUnder s.cds_dir q = true) ↔
        ∃ e ∈ es, e.path ≠ [] ∧ isCdsName (fileName e.path) = true ∧
          q = cdsDest s family (tempPath family ++ e.path)) ∧
    (∀ q : FPath,
      (q ∈ (s.extract_and_organize_files zip_filename family (.entries es) fs).fs.paths ∧
          isUnder s.gff_dir q = true) ↔
        ∃ e ∈ es, e.path ≠ [] ∧ isGffName (fileName e.path) = true ∧
          q = gffDest s family (tempPath family ++ e.path)) := by
  have hfs : (s.extract_and_organize_files zip_filename family (.entries es) fs).fs =
      org_final_fs s zip_filename family es fs := by
    rw [extract_entries_eq s zip_filename family es fs hzip]
  rw [hfs]
  have htc := not_under_temp_cdsdir s family hout hroot
  have htg := not_under_temp_gffdir s family hout hroot
  have hD2c : ∀ r ∈ org_cds_files family es fs, ∀ r2 ∈ org_cds_files family es fs,
      cdsDest s family r ≠ r2 := by
    intro r hr r2 hr2 heq
    obtain ⟨e2, he2, hn2, -, rfl⟩ := (mem_org_cds_files family es fs r2 hclean).mp hr2
    have hu : isUnder (tempPath family) (tempPath family ++ e2.path) = true :=
      (isUnder_append_right _ _).mpr hn2
    rw [← heq] at hu
    unfold cdsDest at hu
    rw [htc] at hu
    exact Bool.noConfusion hu
  have hD2g : ∀ r ∈ org_gff_files s family es fs, ∀ r2 ∈ org_gff_files s family es fs,
      gffDest s family r ≠ r2 := by
    intro r hr r2 hr2 heq
    obtain ⟨e2, he2, hn2, -, rfl⟩ := (mem_org_gff_files s family es fs r2 hclean).mp hr2
    have hu : isUnder (tempPath family) (tempPath family ++ e2.path) = true :=
      (isUnder_append_right _ _).mpr hn2
    rw [← heq] at hu
    unfold gffDest at hu
    rw [htg] at hu
    exact Bool.noConfusion hu
  constructor
  · intro q
    constructor
    · rintro ⟨hq, hqc⟩
      rw [mem_paths_org_final] at hq
      obtain ⟨hq3, hqt, hqz⟩ := hq
      unfold org_fs_after_gff at hq3
      rcases foldMove_paths_subset (gffDest s family) q _ _ hq3 with ⟨p, hp, rfl⟩ | hq2
      · unfold gffDest at hqc
        rw [not_under_cds_gffdest] at hqc
        exact Bool.noConfusion hqc
      · unfold org_fs_after_cds at hq2
        rcases foldMove_paths_subset (cdsDest s family) q _ _ hq2 with ⟨p, hp, rfl⟩ | hq1
        · obtain ⟨e, he, hn, hc, rfl⟩ := (mem_org_cds_files family es fs p hclean).mp hp
          exact ⟨e, he, hn, hc, rfl⟩
        · unfold org_temp_fs at hq1
          rcases (mem_paths_extractAll _ _ _ _).mp hq1 with ⟨e, he, rfl⟩ | hq0
          · by_cases hn : e.path = []
            · rw [hn, List.append_nil, isUnder_iff] at hqc
              have hlen := hqc.2
              have hc2 : s.cds_dir.length = s.output_dir.length + 1 := by
                simp [RefSeqDataDownloader.cds_dir]
              unfold tempPath at hlen
              simp only [List.length_singleton] at hlen
              omega
            · have hu := (isUnder_append_right (tempPath family) e.path).mpr hn
              rw [hu] at hqt
              exact Bool.noConfusion hqt
          · have hf := (hfresh q hq0).1
            rw [hqc] at hf
            exact Bool.noConfusion hf
    · rintro ⟨e, he, hn, hc, rfl⟩
      have hp : tempPath family ++ e.path ∈ org_cds_files family es fs :=
        (mem_org_cds_files family es fs _ hclean).mpr ⟨e, he, hn, hc, rfl⟩
      refine ⟨?_, ?_⟩
      · rw [mem_paths_org_final]
        refine ⟨?_, ?_, ?_⟩
        · unfold org_fs_after_gff
          apply foldMove_paths_mono
          · intro r hr heq
            obtain ⟨e2, he2, hn2, -, rfl⟩ :=
              (mem_org_gff_files s family es fs r hclean).mp hr
            have hu : isUnder (tempPath family) (tempPath family ++ e2.path) = true :=
              (isUnder_append_right _ _).mpr hn2
            rw [← heq] at hu
            unfold cdsDest at hu
            rw [htc] at hu
            exact Bool.noConfusion hu
          · unfold org_fs_after_cds
            exact foldMove_paths_dest (cdsDest s family) _ _ _ hD2c hp
        · unfold cdsDest
          exact htc _
        · unfold cdsDest
          intro heq
          have hlen := congrArg List.length heq
          simp [RefSeqDataDownloader.cds_dir] at hlen
      · unfold cdsDest
        exact (isUnder_append_right _ _).mpr (by simp)
  · intro q
    constructor
    · rintro ⟨hq, hqg⟩
      rw [mem_paths_org_final] at hq
      obtain ⟨hq3, hqt, hqz⟩ := hq
      unfold org_fs_after_gff at hq3
      rcases foldMove_paths_subset (gffDest s family) q _ _ hq3 with ⟨p, hp, rfl⟩ | hq2
      · obtain ⟨e, he, hn, hg, rfl⟩ := (mem_org_gff_files s family es fs p hclean).mp hp
        exact ⟨e, he, hn, hg, rfl⟩
      · unfold org_fs_after_cds at hq2
        rcases foldMove_paths_subset (cdsDest s family) q _ _ hq2 with ⟨p, hp, rfl⟩ | hq1
        · unfold cdsDest at hqg
          rw [not_under_gff_cdsdest] at hqg
          exact Bool.noConfusion hqg
        · unfold org_temp_fs at hq1
          rcases (mem_paths_extractAll _ _ _ _).mp hq1 with ⟨e, he, rfl⟩ | hq0
          · by_cases hn : e.path = []
            · rw [hn, List.append_nil, isUnder_iff] at hqg
              have hlen := hqg.2
              have hc2 : s.gff_dir.length = s.output_dir.length + 1 := by
                simp [RefSeqDataDownloader.gff_dir]
              unfold tempPath at hlen
              simp only [List.length_singleton] at hlen
              omega
            · have hu := (isUnder_append_right (tempPath family) e.path).mpr hn
              rw [hu] at hqt
              exact Bool.noConfusion hqt
          · have hf := (hfresh q hq0).2
            rw [hqg] at hf
            exact Bool.noConfusion hf
    · rintro ⟨e, he, hn, hg, rfl⟩
      have hp : tempPath family ++ e.path ∈ org_gff_files s family es fs :=
        (mem_org_gff_files s family es fs _ hclean).mpr ⟨e, he, hn, hg, rfl⟩
      refine ⟨?_, ?_⟩
      · rw [mem_paths_org_final]
        refine ⟨?_, ?_, ?_⟩
        · unfold org_fs_after_gff
          exact foldMove_paths_dest (gffDest s family) _ _ _ hD2g hp
        · unfold gffDest
          exact htg _
        · unfold gffDest
          intro heq
          have hlen := congrArg List.length heq
          simp [RefSeqDataDownloader.gff_dir] at hlen
      · unfold gffDest
        exact (isUnder_append_right _ _).mpr (by simp)

/-- C1 witness: the specification's example archive
`speciesA/cds_from_genomic.fna` + `speciesB/sub/annotation.gff` yields
exactly `speciesA_fam.fna` in the coding-sequence directory and
`sub_fam.gff` in the gene-feature directory. -/
theorem extract_organize_moves_matches_witness :
    (FS.fileExists ⟨[(["z.zip"], "b")], []⟩ ["z.zip"] = true ∧
      (∀ q ∈ FS.paths ⟨[(["z.zip"], "b")], []⟩, isUnder (tempPath "fam") q = false) ∧
      (∀ q ∈ FS.paths ⟨[(["z.zip"], "b")], []⟩,
        isUnder (RefSeqDataDownloader.cds_dir ⟨["refseq_data"], "dt"⟩) q = false ∧
        isUnder (RefSeqDataDownloader.gff_dir ⟨["refseq_data"], "dt"⟩) q = false) ∧
      (["refseq_data"] : FPath) ≠ [] ∧
      (["refseq_data"] : FPath).head? ≠ some ("temp_" ++ "fam")) ∧
    (∀ q : FPath,
      (q ∈ (RefSeqDataDownloader.extract_and_organize_files ⟨["refseq_data"], "dt"⟩
            "z.zip" "fam"
            (.entries [⟨["speciesA", "cds_from_genomic.fna"], "c1"⟩,
              ⟨["speciesB", "sub", "annotation.gff"], "c2"⟩])
            ⟨[(["z.zip"], "b")], []⟩).fs.paths ∧
          isUnder (RefSeqDataDownloader.cds_dir ⟨["refseq_data"], "dt"⟩) q = true) ↔
        ∃ e ∈ [ZipEntry.mk ["speciesA", "cds_from_genomic.fna"] "c1",
            ZipEntry.mk ["speciesB", "sub", "annotation.gff"] "c2"],
          e.path ≠ [] ∧ isCdsName (fileName e.path) = true ∧
          q = cdsDest ⟨["refseq_data"], "dt"⟩ "fam" (tempPath "fam" ++ e.path)) :=
  ⟨⟨by decide, by decide, by decide, by decide, by decide⟩,
    (extract_organize_moves_matches ⟨["refseq_data"], "dt"⟩ "z.zip" "fam"
      [⟨["speciesA", "cds_from_genomic.fna"], "c1"⟩,
        ⟨["speciesB", "sub", "annotation.gff"], "c2"⟩]
      ⟨[(["z.zip"], "b")], []⟩ (by decide) (by decide) (by decide) (by decide)
      (by decide)).1⟩

theorem rglob_insertFile_not_pred (fs : FS) (p : FPath) (c : String) (d : FPath)
    (pat : String → Bool) (h : (isUnder d p && pat (fileName p)) = false) :
    (fs.insertFile p c).rglob d pat = fs.rglob d pat := by
  unfold FS.insertFile FS.rglob
  simp only
  rw [List.map_append, List.filter_append]
  have h2 : (([(p, c)] : List (FPath × String)).map (fun e => e.1)).filter
      (fun q => isUnder d q && pat (fileName q)) = [] := by
    rw [List.filter_eq_nil_iff]
    intro q hq
    rcases List.mem_singleton.mp hq with rfl
    simp [h]
  rw [h2, List.append_nil, List.filter_map, List.filter_map, List.filter_filter]
  congr 1
  apply List.filter_congr
  intro e _
  simp only [Function.comp]
  cases hval : (isUnder d e.1 && pat (fileName e.1)) with
  | false => simp [hval]
  | true =>
    have hne : (e.1 == p) = false := by
      simp only [beq_eq_false_iff_ne, ne_eq]
      intro heq
      rw [heq, h] at hval
      exact Bool.noConfusion hval
    simp [hval, hne]

theorem rglob_removeFile_not_pred (fs : FS) (p : FPath) (d : FPath)
    (pat : String → Bool) (h : (isUnder d p && pat (fileName p)) = false) :
    (fs.removeFile p).rglob d pat = fs.rglob d pat := by
  unfold FS.removeFile FS.rglob
  simp only
  rw [List.filter_map, List.filter_map, List.filter_filter]
  congr 1
  apply List.filter_congr
  intro e _
  simp only [Function.comp]
  cases hval : (isUnder d e.1 && pat (fileName e.1)) with
  | false => simp [hval]
  | true =>
    have hne : (e.1 == p) = false := by
      simp only [beq_eq_false_iff_ne, ne_eq]
      intro heq
      rw [heq, h] at hval
      exact Bool.noConfusion hval
    simp [hval, hne]

theorem rglob_move_not_pred (fs : FS) (src dst d : FPath) (pat : String → Bool)
    (hs : (isUnder d src && pat (fileName src)) = false)
    (hd : (isUnder d dst && pat (fileName dst)) = false) :
    (fs.move src dst).rglob d pat = fs.rglob d pat := by
  unfold FS.move
  rw [rglob_insertFile_not_pred _ _ _ _ _ hd, rglob_removeFile_not_pred _ _ _ _ hs]

/-- A sequence of moves whose sources and destinations all fail a scan
predicate leaves the scan result unchanged, as a list. -/
theorem foldMove_rglob_pres (f : FPath → FPath) (d : FPath) (pat : String → Bool) :
    ∀ (srcs : List FPath) (fs0 : FS),
      (∀ p ∈ srcs, (isUnder d p && pat (fileName p)) = false ∧
        (isUnder d (f p) && pat (fileName (f p))) = false) →
      (srcs.foldl (fun acc p => acc.move p (f p)) fs0).rglob d pat =
        fs0.rglob d pat := by
  intro srcs
  induction srcs with
  | nil => intro fs0 _; rfl
  | cons a t ih =>
    intro fs0 hcond
    rw [List.foldl_cons, ih _ (fun p hp => hcond p (List.mem_cons_of_mem _ hp)),
      rglob_move_not_pred _ _ _ _ _ (hcond a (List.mem_cons_self _ _)).1
        (hcond a (List.mem_cons_self _ _)).2]

/-- With a fresh scratch directory and duplicate-free archive paths, a scan
of the extracted tree returns exactly the matching archive entries, in
archive order, at their extracted locations. -/
theorem org_rglob_extract_eq (family : String) (es : List ZipEntry) (fs : FS)
    (pat : String → Bool)
    (hclean : ∀ q ∈ fs.paths, isUnder (tempPath family) q = false)
    (hne : ∀ e ∈ es, e.path ≠ []) (hnd : (es.map (fun e => e.path)).Nodup) :
    (org_temp_fs family es fs).rglob (tempPath family) pat =
      (es.filter (fun e => pat (fileName e.path))).map
        (fun e => tempPath family ++ e.path) := by
  unfold org_temp_fs FS.rglob
  rw [files_extractAll_clean fs (tempPath family) es ?hnm hnd]
  case hnm =>
    intro e he hmem
    have hu : isUnder (tempPath family) (tempPath family ++ e.path) = true :=
      (isUnder_append_right _ _).mpr (hne e he)
    rw [hclean _ hmem] at hu
    exact Bool.noConfusion hu
  rw [List.map_append, List.filter_append]
  have h1 : (fs.files.map (fun e => e.1)).filter
      (fun p => isUnder (tempPath family) p && pat (fileName p)) = [] := by
    rw [List.filter_eq_nil_iff]
    intro p hp
    simp [hclean p hp]
  rw [h1, List.nil_append, List.map_map, List.filter_map]
  congr 1
  apply List.filter_congr
  intro e he
  have hu : isUnder (tempPath family) (tempPath family ++ e.path) = true :=
    (isUnder_append_right _ _).mpr (hne e he)
  simp only [Function.comp]
  rw [fileName_append _ _ (hne e he), hu, Bool.true_and]

/-- The coding-sequence moves neither consume nor produce `*.gff` matches,
so the gene-feature match list equals the matching archive entries, in
archive order, at their extracted locations. -/
theorem org_gff_files_eq (s : RefSeqDataDownloader) (family : String)
    (es : List ZipEntry) (fs : FS)
    (hclean : ∀ q ∈ fs.paths, isUnder (tempPath family) q = false)
    (hne : ∀ e ∈ es, e.path ≠ []) (hnd : (es.map (fun e => e.path)).Nodup) :
    org_gff_files s family es fs =
      (es.filter (fun e => isGffName (fileName e.path))).map
        (fun e => tempPath family ++ e.path) := by
  unfold org_gff_files org_fs_after_cds
  rw [foldMove_rglob_pres (cdsDest s family) (tempPath family) isGffName
    (org_cds_files family es fs) (org_temp_fs family es fs) ?hcond]
  case hcond =>
    intro p hp
    constructor
    · obtain ⟨e, he, hn, hc, rfl⟩ := (mem_org_cds_files family es fs p hclean).mp hp
      rw [fileName_append _ _ hn, isCdsName_not_gff _ hc, Bool.and_false]
    · unfold cdsDest
      rw [fileName_concat, isGffName_append_fna, Bool.and_false]
  exact org_rglob_extract_eq family es fs isGffName hclean hne hnd

theorem org_gff_files_nodup (s : RefSeqDataDownloader) (family : String)
    (es : List ZipEntry) (fs : FS)
    (hclean : ∀ q ∈ fs.paths, isUnder (tempPath family) q = false)
    (hne : ∀ e ∈ es, e.path ≠ []) (hnd : (es.map (fun e => e.path)).Nodup) :
    (org_gff_files s family es fs).Nodup := by
  rw [org_gff_files_eq s family es fs hclean hne hnd]
  have h1 : ((es.filter (fun e => isGffName (fileName e.path))).map
      (fun e => e.path)).Nodup :=
    hnd.sublist ((List.filter_sublist es).map (fun e => e.path))
  have h2 : (es.filter (fun e => isGffName (fileName e.path))).map
        (fun e => tempPath family ++ e.path) =
      ((es.filter (fun e => isGffName (fileName e.path))).map (fun e => e.path)).map
        (fun p => tempPath family ++ p) := by
    rw [List.map_map]
    rfl
  rw [h2]
  exact h1.map (fun a b hab => List.append_cancel_left hab)

/-- Collisions among the coding-sequence moves: one survivor, content of
the last colliding match. -/
theorem last_write_wins_cds (s : RefSeqDataDownloader)
    (zip_filename family n : String) (es : List ZipEntry) (fs : FS) (elast : ZipEntry)
    (hclean : ∀ q ∈ fs.paths, isUnder (tempPath family) q = false)
    (hout : s.output_dir ≠ [])
    (hroot : s.output_dir.head? ≠ some ("temp_" ++ family))
    (hne : ∀ e ∈ es, e.path ≠ [])
    (hnd : (es.map (fun e => e.path)).Nodup)
    (hcol : 2 ≤ (es.filter (fun e => isCdsName (fileName e.path) &&
        (cdsDest s family (tempPath family ++ e.path) == s.cds_dir ++ [n]))).length)
    (hlast : (es.filter (fun e => isCdsName (fileName e.path) &&
        (cdsDest s family (tempPath family ++ e.path) == s.cds_dir ++ [n]))).getLast? =
      some elast) :
    (org_final_fs s zip_filename family es fs).countAt (s.cds_dir ++ [n]) = 1 ∧
    (org_final_fs s zip_filename family es fs).lookupFile (s.cds_dir ++ [n]) =
      some elast.content := by
  have hsplit : (org_cds_files family es fs).filter
        (fun p => cdsDest s family p == s.cds_dir ++ [n]) =
      (es.filter (fun e => isCdsName (fileName e.path) &&
        (cdsDest s family (tempPath family ++ e.path) == s.cds_dir ++ [n]))).map
        (fun e => tempPath family ++ e.path) := by
    rw [org_cds_files_eq family es fs hclean hne hnd, List.filter_map, List.filter_filter]
    congr 1
    apply List.filter_congr
    intro e _
    simp only [Function.comp]
    exact Bool.and_comm _ _
  have hits_last : ((org_cds_files family es fs).filter
        (fun p => cdsDest s family p == s.cds_dir ++ [n])).getLast? =
      some (tempPath family ++ elast.path) := by
    rw [hsplit, List.getLast?_map, hlast]
    rfl
  have hcolne : es.filter (fun e => isCdsName (fileName e.path) &&
      (cdsDest s family (tempPath family ++ e.path) == s.cds_dir ++ [n])) ≠ [] := by
    intro h0
    rw [h0] at hcol
    simp at hcol
  have hits_ne : (org_cds_files family es fs).filter
      (fun p => cdsDest s family p == s.cds_dir ++ [n]) ≠ [] := by
    rw [hsplit]
    simpa using hcolne
  have hnsrc : (org_cds_files family es fs).Nodup := by
    unfold org_cds_files org_temp_fs
    apply rglob_nodup
    apply countAt_extractAll_le
    intro q hq
    have h0 : fs.countAt q = 0 := (countAt_eq_zero_iff fs q).mpr
      (fun hmem => by rw [hclean q hmem] at hq; exact Bool.noConfusion hq)
    rw [h0]
    exact Nat.zero_le 1
  have hD2c : ∀ r ∈ org_cds_files family es fs, ∀ r2 ∈ org_cds_files family es fs,
      cdsDest s family r ≠ r2 := by
    intro r hr r2 hr2 heq
    obtain ⟨e2, he2, hn2, -, rfl⟩ := (mem_org_cds_files family es fs r2 hclean).mp hr2
    have hu : isUnder (tempPath family) (tempPath family ++ e2.path) = true :=
      (isUnder_append_right _ _).mpr hn2
    rw [← heq] at hu
    unfold cdsDest at hu
    rw [not_under_temp_cdsdir s family hout hroot] at hu
    exact Bool.noConfusion hu
  have helast_mem : elast ∈ es := List.mem_of_mem_filter (mem_of_getLast?_eq hlast)
  have hlook1 : (org_temp_fs family es fs).lookupFile (tempPath family ++ elast.path) =
      some elast.content := by
    unfold org_temp_fs
    apply lookupFile_extractAll_hit
    rw [filter_key_unique (tempPath family) es hnd elast helast_mem]
    rfl
  have hcount2 : (org_fs_after_cds s family es fs).countAt (s.cds_dir ++ [n]) = 1 := by
    unfold org_fs_after_cds
    exact foldMove_countAt_hit (cdsDest s family) (s.cds_dir ++ [n]) _ _ hD2c hits_ne
  have hlook2 : (org_fs_after_cds s family es fs).lookupFile (s.cds_dir ++ [n]) =
      some elast.content := by
    unfold org_fs_after_cds
    rw [foldMove_lookup_hit (cdsDest s family) (s.cds_dir ++ [n])
      (tempPath family ++ elast.path) _ _ hnsrc hD2c hits_last, hlook1]
    rfl
  have hpres : ∀ p ∈ org_gff_files s family es fs,
      p ≠ s.cds_dir ++ [n] ∧ gffDest s family p ≠ s.cds_dir ++ [n] := by
    intro p hp
    constructor
    · obtain ⟨e2, he2, hn2, -, rfl⟩ := (mem_org_gff_files s family es fs p hclean).mp hp
      intro heq
      have hu : isUnder (tempPath family) (tempPath family ++ e2.path) = true :=
        (isUnder_append_right _ _).mpr hn2
      rw [heq, not_under_temp_cdsdir s family hout hroot] at hu
      exact Bool.noConfusion hu
    · intro heq
      unfold gffDest at heq
      exact cds_gff_dest_ne s n _ heq.symm
  have hdz : s.cds_dir ++ [n] ≠ [zip_filename] := by
    intro h
    have hlen := congrArg List.length h
    simp [RefSeqDataDownloader.cds_dir] at hlen
  have htmp : isUnder (tempPath family) (s.cds_dir ++ [n]) = false :=
    not_under_temp_cdsdir s family hout hroot n
  constructor
  · unfold org_final_fs
    rw [countAt_removeFile_ne _ _ _ hdz, countAt_rmtree_not_under _ _ _ htmp]
    unfold org_fs_after_gff
    rw [foldMove_countAt_pres (gffDest s family) (s.cds_dir ++ [n]) _ _ hpres]
    exact hcount2
  · unfold org_final_fs
    rw [lookupFile_removeFile_ne _ _ _ hdz, lookupFile_rmtree_not_under _ _ _ htmp]
    unfold org_fs_after_gff
    rw [foldMove_lookup_pres (gffDest s family) (s.cds_dir ++ [n]) _ _ hpres]
    exact hlook2

/-- Collisions among the gene-feature moves: one survivor, content of the
last colliding match. -/
theorem last_write_wins_gff (s : RefSeqDataDownloader)
    (zip_filename family n : String) (es : List ZipEntry) (fs : FS) (elast : ZipEntry)
    (hclean : ∀ q ∈ fs.paths, isUnder (tempPath family) q = false)
    (hout : s.output_dir ≠ [])
    (hroot : s.output_dir.head? ≠ some ("temp_" ++ family))
    (hne : ∀ e ∈ es, e.path ≠ [])
    (hnd : (es.map (fun e => e.path)).Nodup)
    (hcol : 2 ≤ (es.filter (fun e => isGffName (fileName e.path) &&
        (gffDest s family (tempPath family ++ e.path) == s.gff_dir ++ [n]))).length)
    (hlast : (es.filter (fun e => isGffName (fileName e.path) &&
        (gffDest s family (tempPath family ++ e.path) == s.gff_dir ++ [n]))).getLast? =
      some elast) :
    (org_final_fs s zip_filename family es fs).countAt (s.gff_dir ++ [n]) = 1 ∧
    (org_final_fs s zip_filename family es fs).lookupFile (s.gff_dir ++ [n]) =
      some elast.content := by
  have hsplit : (org_gff_files s family es fs).filter
        (fun p => gffDest s family p == s.gff_dir ++ [n]) =
      (es.filter (fun e => isGffName (fileName e.path) &&
        (gffDest s family (tempPath family ++ e.path) == s.gff_dir ++ [n]))).map
        (fun e => tempPath family ++ e.path) := by
    rw [org_gff_files_eq s family es fs hclean hne hnd, List.filter_map,
      List.filter_filter]
    congr 1
    apply List.filter_congr
    intro e _
    simp only [Function.comp]
    exact Bool.and_comm _ _
  have hits_last : ((org_gff_files s family es fs).filter
        (fun p => gffDest s family p == s.gff_dir ++ [n])).getLast? =
      some (tempPath family ++ elast.path) := by
    rw [hsplit, List.getLast?_map, hlast]
    rfl
  have hcolne : es.filter (fun e => isGffName (fileName e.path) &&
      (gffDest s family (tempPath family ++ e.path) == s.gff_dir ++ [n])) ≠ [] := by
    intro h0
    rw [h0] at hcol
    simp at hcol
  have hits_ne : (org_gff_files s family es fs).filter
      (fun p => gffDest s family p == s.gff_dir ++ [n]) ≠ [] := by
    rw [hsplit]
    simpa using hcolne
  have hnsrc : (org_gff_files s family es fs).Nodup :=
    org_gff_files_nodup s family es fs hclean hne hnd
  have hD2g : ∀ r ∈ org_gff_files s family es fs, ∀ r2 ∈ org_gff_files s family es fs,
      gffDest s family r ≠ r2 := by
    intro r hr r2 hr2 heq
    obtain ⟨e2, he2, hn2, -, rfl⟩ := (mem_org_gff_files s family es fs r2 hclean).mp hr2
    have hu : isUnder (tempPath family) (tempPath family ++ e2.path) = true :=
      (isUnder_append_right _ _).mpr hn2
    rw [← heq] at hu
    unfold gffDest at hu
    rw [not_under_temp_gffdir s family hout hroot] at hu
    exact Bool.noConfusion hu
  have helast_mem : elast ∈ es := List.mem_of_mem_filter (mem_of_getLast?_eq hlast)
  have helast_gff : isGffName (fileName elast.path) = true := by
    have h1 := (List.mem_filter.mp (mem_of_getLast?_eq hlast)).2
    rw [Bool.and_eq_true] at h1
    exact h1.1
  have hlook1 : (org_temp_fs family es fs).lookupFile (tempPath family ++ elast.path) =
      some elast.content := by
    unfold org_temp_fs
    apply lookupFile_extractAll_hit
    rw [filter_key_unique (tempPath family) es hnd elast helast_mem]
    rfl
  have hlook2src : (org_fs_after_cds s family es fs).lookupFile
      (tempPath family ++ elast.path) = some elast.content := by
    unfold org_fs_after_cds
    rw [foldMove_lookup_pres (cdsDest s family) (tempPath family ++ elast.path) _ _ ?hc]
    · exact hlook1
    case hc =>
      intro p hp
      obtain ⟨e2, he2, hn2, hc2, rfl⟩ := (mem_org_cds_files family es fs p hclean).mp hp
      constructor
      · intro heq
        have hpath : e2.path = elast.path := List.append_cancel_left heq
        have hgf : isGffName (fileName e2.path) = false := isCdsName_not_gff _ hc2
        rw [hpath, helast_gff] at hgf
        exact Bool.noConfusion hgf
      · intro heq
        have hu : isUnder (tempPath family) (tempPath family ++ elast.path) = true :=
          (isUnder_append_right _ _).mpr (hne elast helast_mem)
        rw [← heq] at hu
        unfold cdsDest at hu
        rw [not_under_temp_cdsdir s family hout hroot] at hu
        exact Bool.noConfusion hu
  have hcount3 : (org_fs_after_gff s family es fs).countAt (s.gff_dir ++ [n]) = 1 := by
    unfold org_fs_after_gff
    exact foldMove_countAt_hit (gffDest s family) (s.gff_dir ++ [n]) _ _ hD2g hits_ne
  have hlook3 : (org_fs_after_gff s family es fs).lookupFile (s.gff_dir ++ [n]) =
      some elast.content := by
    unfold org_fs_after_gff
    rw [foldMove_lookup_hit (gffDest s family) (s.gff_dir ++ [n])
      (tempPath family ++ elast.path) _ _ hnsrc hD2g hits_last, hlook2src]
    rfl
  have hdz : s.gff_dir ++ [n] ≠ [zip_filename] := by
    intro h
    have hlen := congrArg List.length h
    simp [RefSeqDataDownloader.gff_dir] at hlen
  have htmp : isUnder (tempPath family) (s.gff_dir ++ [n]) = false :=
    not_under_temp_gffdir s family hout hroot n
  constructor
  · unfold org_final_fs
    rw [countAt_removeFile_ne _ _ _ hdz, countAt_rmtree_not_under _ _ _ htmp]
    exact hcount3
  · unfold org_final_fs
    rw [lookupFile_removeFile_ne _ _ _ hdz, lookupFile_rmtree_not_under _ _ _ htmp]
    exact hlook3


/-- C8: no collision detection — when several matched files of either
pattern resolve to the same destination name `{n}` (at least two colliding
matches), later moves silently overwrite earlier ones: exactly one file
survives at that destination, and its content is that of the last colliding
match in scan order (last-write-wins). The first conjunct settles collisions
among the coding-sequence moves, the second collisions among the
gene-feature moves. -/
theorem extract_organize_last_write_wins (s : RefSeqDataDownloader)
    (zip_filename family : String) (es : List ZipEntry) (fs : FS)
    (hzip : fs.fileExists [zip_filename] = true)
    (hclean : ∀ q ∈ fs.paths, isUnder (tempPath family) q = false)
    (hout : s.output_dir ≠ [])
    (hroot : s.output_dir.head? ≠ some ("temp_" ++ family))
    (hne : ∀ e ∈ es, e.path ≠ [])
    (hnd : (es.map (fun e => e.path)).Nodup) :
    (∀ (n : String) (elast : ZipEntry),
      2 ≤ (es.filter (fun e => isCdsName (fileName e.path) &&
          (cdsDest s family (tempPath family ++ e.path) == s.cds_dir ++ [n]))).length →
      (es.filter (fun e => isCdsName (fileName e.path) &&
          (cdsDest s family (tempPath family ++ e.path) == s.cds_dir ++ [n]))).getLast? =
        some elast →
      (s.extract_and_organize_files zip_filename family (.entries es) fs).fs.countAt
          (s.cds_dir ++ [n]) = 1 ∧
      (s.extract_and_organize_files zip_filename family (.entries es) fs).fs.lookupFile
          (s.cds_dir ++ [n]) = some elast.content) ∧
    (∀ (n : String) (elast : ZipEntry),
      2 ≤ (es.filter (fun e => isGffName (fileName e.path) &&
          (gffDest s family (tempPath family ++ e.path) == s.gff_dir ++ [n]))).length →
      (es.filter (fun e => isGffName (fileName e.path) &&
          (gffDest s family (tempPath family ++ e.path) == s.gff_dir ++ [n]))).getLast? =
        some elast →
      (s.extract_and_organize_files zip_filename family (.entries es) fs).fs.countAt
          (s.gff_dir ++ [n]) = 1 ∧
      (s.extract_and_organize_files zip_filename family (.entries es) fs).fs.lookupFile
          (s.gff_dir ++ [n]) = some elast.content) := by
  have hfs : (s.extract_and_organize_files zip_filename family (.entries es) fs).fs =
      org_final_fs s zip_filename family es fs := by
    rw [extract_entries_eq s zip_filename family es fs hzip]
  rw [hfs]
  constructor
  · intro n elast hcol hlast
    exact last_write_wins_cds s zip_filename family n es fs elast hclean hout hroot
      hne hnd hcol hlast
  · intro n elast hcol hlast
    exact last_write_wins_gff s zip_filename family n es fs elast hclean hout hroot
      hne hnd hcol hlast

/-- C8 witness: collisions of both patterns at concrete inputs. Two
`cds_from_genomic.fna` entries whose parent directories are both named
`speciesA` collide on `speciesA_fam.fna`, and two `*.gff` entries whose
parent directories are both named `speciesA` collide on `speciesA_fam.gff`;
in each run exactly one file survives, holding the second entry's content. -/
theorem extract_organize_last_write_wins_witness :
    ((2 : Nat) ≤ ([ZipEntry.mk ["speciesA", "cds_from_genomic.fna"] "c1",
        ZipEntry.mk ["x", "speciesA", "cds_from_genomic.fna"] "c2"].filter
        (fun e => isCdsName (fileName e.path) &&
          (cdsDest ⟨["refseq_data"], "dt"⟩ "fam" (tempPath "fam" ++ e.path) ==
            RefSeqDataDownloader.cds_dir ⟨["refseq_data"], "dt"⟩ ++
              ["speciesA_fam.fna"]))).length ∧
      (RefSeqDataDownloader.extract_and_organize_files ⟨["refseq_data"], "dt"⟩ "z.zip" "fam"
          (.entries [⟨["speciesA", "cds_from_genomic.fna"], "c1"⟩,
            ⟨["x", "speciesA", "cds_from_genomic.fna"], "c2"⟩])
          ⟨[(["z.zip"], "b")], []⟩).fs.countAt
        (RefSeqDataDownloader.cds_dir ⟨["refseq_data"], "dt"⟩ ++
          ["speciesA_fam.fna"]) = 1 ∧
      (RefSeqDataDownloader.extract_and_organize_files ⟨["refseq_data"], "dt"⟩ "z.zip" "fam"
          (.entries [⟨["speciesA", "cds_from_genomic.fna"], "c1"⟩,
            ⟨["x", "speciesA", "cds_from_genomic.fna"], "c2"⟩])
          ⟨[(["z.zip"], "b")], []⟩).fs.lookupFile
        (RefSeqDataDownloader.cds_dir ⟨["refseq_data"], "dt"⟩ ++
          ["speciesA_fam.fna"]) = some "c2") ∧
    ((2 : Nat) ≤ ([ZipEntry.mk ["speciesA", "a.gff"] "g1",
        ZipEntry.mk ["x", "speciesA", "b.gff"] "g2"].filter
        (fun e => isGffName (fileName e.path) &&
          (gffDest ⟨["refseq_data"], "dt"⟩ "fam" (tempPath "fam" ++ e.path) ==
            RefSeqDataDownloader.gff_dir ⟨["refseq_data"], "dt"⟩ ++
              ["speciesA_fam.gff"]))).length ∧
      (RefSeqDataDownloader.extract_and_organize_files ⟨["refseq_data"], "dt"⟩ "z.zip" "fam"
          (.entries [⟨["speciesA", "a.gff"], "g1"⟩, ⟨["x", "speciesA", "b.gff"], "g2"⟩])
          ⟨[(["z.zip"], "b")], []⟩).fs.countAt
        (RefSeqDataDownloader.gff_dir ⟨["refseq_data"], "dt"⟩ ++
          ["speciesA_fam.gff"]) = 1 ∧
      (RefSeqDataDownloader.extract_and_organize_files ⟨["refseq_data"], "dt"⟩ "z.zip" "fam"
          (.entries [⟨["speciesA", "a.gff"], "g1"⟩, ⟨["x", "speciesA", "b.gff"], "g2"⟩])
          ⟨[(["z.zip"], "b")], []⟩).fs.lookupFile
        (RefSeqDataDownloader.gff_dir ⟨["refseq_data"], "dt"⟩ ++
          ["speciesA_fam.gff"]) = some "g2") :=
  ⟨⟨by decide,
      (extract_organize_last_write_wins ⟨["refseq_data"], "dt"⟩ "z.zip" "fam"
        [⟨["speciesA", "cds_from_genomic.fna"], "c1"⟩,
          ⟨["x", "speciesA", "cds_from_genomic.fna"], "c2"⟩]
        ⟨[(["z.zip"], "b")], []⟩
        (by decide) (by decide) (by decide) (by decide) (by decide) (by decide)).1
        "speciesA_fam.fna" ⟨["x", "speciesA", "cds_from_genomic.fna"], "c2"⟩
        (by decide) (by decide)⟩,
    ⟨by decide,
      (extract_organize_last_write_wins ⟨["refseq_data"], "dt"⟩ "z.zip" "fam"
        [⟨["speciesA", "a.gff"], "g1"⟩, ⟨["x", "speciesA", "b.gff"], "g2"⟩]
        ⟨[(["z.zip"], "b")], []⟩
        (by decide) (by decide) (by decide) (by decide) (by decide) (by decide)).2
        "speciesA_fam.gff" ⟨["x", "speciesA", "b.gff"], "g2"⟩
        (by decide) (by decide)⟩⟩

/-- C2 witness: a concrete archive with one matching entry gives a `True`
return, at concrete inputs discharging both hypotheses. -/
theorem extract_organize_ret_iff_witness :
    (FS.fileExists ⟨[(["z.zip"], "b")], []⟩ ["z.zip"] = true ∧
      (∀ q ∈ FS.paths ⟨[(["z.zip"], "b")], []⟩, isUnder (tempPath "fam") q = false)) ∧
    ((RefSeqDataDownloader.extract_and_organize_files ⟨["refseq_data"], "dt"⟩ "z.zip" "fam"
        (.entries [⟨["speciesA", "cds_from_genomic.fna"], "c"⟩]) ⟨[(["z.zip"], "b")], []⟩).ret =
        true ↔
      ∃ e ∈ [ZipEntry.mk ["speciesA", "cds_from_genomic.fna"] "c"], e.path ≠ [] ∧
        (isCdsName (fileName e.path) = true ∨ isGffName (fileName e.path) = true)) :=
  ⟨⟨by decide, by decide⟩,
    (extract_organize_ret_iff ⟨["refseq_data"], "dt"⟩ "z.zip" "fam"
      [⟨["speciesA", "cds_from_genomic.fna"], "c"⟩] ⟨[(["z.zip"], "b")], []⟩
      (by decide) (by decide)).1⟩

/-! ## The orchestrator and the whole run -/

/-- `get_available_species` can only return the empty list or the singleton
list holding the family string itself. -/
theorem get_available_species_cases (family : String) (pr : ProcResult) (l : List String)
    (h : get_available_species family pr = .ok l) : l = [] ∨ l = [family] := by
  unfold get_available_species at h
  split at h
  · exact Or.inl (Except.ok.inj h).symm
  · split at h
    · split at h
      · exact Except.noConfusion h
      · split at h
        · split at h
          · split at h
            · exact Or.inr (Except.ok.inj h).symm
            · exact Or.inl (Except.ok.inj h).symm
          · split at h
            · exact Or.inr (Except.ok.inj h).symm
            · exact Or.inl (Except.ok.inj h).symm
          · exact Except.noConfusion h
        · exact Except.noConfusion h
    · exact Or.inl (Except.ok.inj h).symm

/-- C7: when the availability probe yields an empty species list (record
count zero, marker absent, or failed invocation), `download_family_data`
returns `False` immediately with only the probe in its invocation trace — no
download, hence no extraction; when the probe yields the singleton family
list, exactly one taxon (the family itself) is processed — one download
invocation for it — and the function returns `True` iff that taxon's
download succeeded and its extract-and-organize step returned `True`. -/
theorem download_family_data_contract (s : RefSeqDataDownloader) (family : String)
    (include_cds include_gff : Bool) (env : Env) (fs : FS) :
    (get_available_species family env.probeResult = .ok [] →
      download_family_data s family include_cds include_gff env fs =
        (.done false, fs, [.probeCall family])) ∧
    (get_available_species family env.probeResult = .ok [family] →
      (download_family_data s family include_cds include_gff env fs).2.2 =
        [.probeCall family,
          .downloadCall family (buildIncludeParam include_cds include_gff)
            (downloadFilename family)] ∧
      ((download_family_data s family include_cds include_gff env fs).1 = .done true ↔
        env.downloadOk = true ∧
          (s.extract_and_organize_files (downloadFilename family) family env.archive
            (fs.insertFile [downloadFilename family] "zip archive bytes")).ret = true)) := by
  constructor
  · intro hav
    unfold download_family_data
    rw [hav]
    rfl
  · intro hav
    unfold download_family_data
    rw [hav]
    cases hdl : env.downloadOk with
    | false =>
      constructor
      · simp [processTaxon, download_genome_data, hdl]
      · simp [processTaxon, download_genome_data, hdl]
    | true =>
      cases hret : (s.extract_and_organize_files (downloadFilename family) family env.archive
          (fs.insertFile [downloadFilename family] "zip archive bytes")).ret with
      | false =>
        constructor
        · simp [processTaxon, download_genome_data, hdl]
        · simp [processTaxon, download_genome_data, hdl, hret]
      | true =>
        constructor
        · simp [processTaxon, download_genome_data, hdl]
        · simp [processTaxon, download_genome_data, hdl, hret]

/-- C7 witness: a failed probe gives an immediate `False` with no download
invocation, at concrete inputs. -/
theorem download_family_data_contract_witness :
    (get_available_species "fam" ProcResult.calledProcessError = .ok []) ∧
    download_family_data ⟨["refseq_data"], "dt"⟩ "fam" true true
        ⟨true, .calledProcessError, true, .corrupt⟩ ⟨[], []⟩ =
      (.done false, ⟨[], []⟩, [.probeCall "fam"]) :=
  ⟨rfl,
    (download_family_data_contract ⟨["refseq_data"], "dt"⟩ "fam" true true
      ⟨true, .calledProcessError, true, .corrupt⟩ ⟨[], []⟩).1 rfl⟩

theorem init_dirs (o : FPath) (tool : String) (fs0 : FS) :
    o ∈ (RefSeqDataDownloader.init o tool fs0).2.dirs ∧
    (o ++ ["cds_files"]) ∈ (RefSeqDataDownloader.init o tool fs0).2.dirs ∧
    (o ++ ["gff_files"]) ∈ (RefSeqDataDownloader.init o tool fs0).2.dirs := by
  unfold RefSeqDataDownloader.init
  simp only [RefSeqDataDownloader.cds_dir, RefSeqDataDownloader.gff_dir, mem_dirs_mkdir]
  tauto

theorem processTaxon_dirs (s : RefSeqDataDownloader) (ic ig : Bool) (env : Env)
    (acc : FamAcc) (taxon : String) (q : FPath) (hq : ¬ (tempPath taxon <+: q))
    (hmem : q ∈ acc.fs.dirs) : q ∈ (processTaxon s ic ig env acc taxon).fs.dirs := by
  unfold processTaxon
  cases hdl : env.downloadOk with
  | false =>
    have hdg : download_genome_data taxon ic ig env acc.fs =
        (none, acc.fs, [.downloadCall taxon (buildIncludeParam ic ig)
          (downloadFilename taxon)]) := by
      unfold download_genome_data
      rw [hdl]
      rfl
    rw [hdg]
    exact hmem
  | true =>
    have hdg : download_genome_data taxon ic ig env acc.fs =
        (some (downloadFilename taxon),
          acc.fs.insertFile [downloadFilename taxon] "zip archive bytes",
          [.downloadCall taxon (buildIncludeParam ic ig) (downloadFilename taxon)]) := by
      unfold download_genome_data
      rw [hdl]
      rfl
    rw [hdg]
    have hz : (acc.fs.insertFile [downloadFilename taxon] "zip archive bytes").fileExists
        [downloadFilename taxon] = true := by
      rw [fileExists_iff, mem_paths_insertFile]
      exact Or.inl rfl
    show q ∈ (s.extract_and_organize_files (downloadFilename taxon) taxon env.archive
      (acc.fs.insertFile [downloadFilename taxon] "zip archive bytes")).fs.dirs
    cases harch : env.archive with
    | corrupt =>
      rw [extract_corrupt_eq _ _ _ _ hz]
      exact hmem
    | entries es =>
      rw [extract_entries_eq _ _ _ _ _ hz]
      show q ∈ (org_final_fs s (downloadFilename taxon) taxon es
        (acc.fs.insertFile [downloadFilename taxon] "zip archive bytes")).dirs
      unfold org_final_fs
      rw [dirs_removeFile, mem_dirs_rmtree]
      refine ⟨?_, ?_, ?_⟩
      · unfold org_fs_after_gff org_fs_after_cds
        rw [dirs_foldMove, dirs_foldMove]
        unfold org_temp_fs
        exact dirs_extractAll_mono _ _ _ _ hmem
      · intro h0
        subst h0
        exact hq (List.prefix_refl _)
      · rw [isUnder_false_iff]
        rintro ⟨hpre, -⟩
        exact hq hpre

theorem dirs_download_family_data (s : RefSeqDataDownloader) (family : String)
    (ic ig : Bool) (env : Env) (fs : FS) (q : FPath)
    (hq : ¬ (tempPath family <+: q)) (hmem : q ∈ fs.dirs) :
    q ∈ (download_family_data s family ic ig env fs).2.1.dirs := by
  unfold download_family_data
  cases hav : get_available_species family env.probeResult with
  | error msg => exact hmem
  | ok l =>
    rcases get_available_species_cases family env.probeResult l hav with rfl | rfl
    · exact hmem
    · exact processTaxon_dirs s ic ig env ⟨0, fs, [.probeCall family]⟩ family q hq hmem

theorem main_fs_dirs (args : Args) (env : Env) (fs0 : FS) (q : FPath)
    (hq : ¬ (tempPath args.family <+: q))
    (hmem : q ∈ (RefSeqDataDownloader.init args.output_dir args.datasets_tool fs0).2.dirs) :
    q ∈ (main args env fs0).fs.dirs := by
  unfold main
  cases htc : env.toolCheckOk with
  | false => exact hmem
  | true =>
    by_cases hf : ((!(!args.no_cds)) && (!(!args.no_gff))) = true
    · rw [if_neg (by decide : ¬ ((true : Bool) = false)), if_pos hf]
      exact hmem
    · rw [if_neg (by decide : ¬ ((true : Bool) = false)), if_neg hf]
      have h2 := dirs_download_family_data
        (RefSeqDataDownloader.init args.output_dir args.datasets_tool fs0).1
        args.family (!args.no_cds) (!args.no_gff) env
        (RefSeqDataDownloader.init args.output_dir args.datasets_tool fs0).2 q hq hmem
      rcases hdfd : download_family_data
          (RefSeqDataDownloader.init args.output_dir args.datasets_tool fs0).1
          args.family (!args.no_cds) (!args.no_gff) env
          (RefSeqDataDownloader.init args.output_dir args.datasets_tool fs0).2 with
        ⟨res, fs2, tr⟩
      rw [hdfd] at h2
      cases res with
      | exn m => exact h2
      | done success => exact h2

theorem temp_ne_cds_name (family : String) : "temp_" ++ family ≠ "cds_files" := by
  intro h
  have h2 := congrArg String.data h
  rw [String.data_append] at h2
  have h3 : 't' = 'c' := List.head_eq_of_cons_eq h2
  exact absurd h3 (by decide)

theorem temp_ne_gff_name (family : String) : "temp_" ++ family ≠ "gff_files" := by
  intro h
  have h2 := congrArg String.data h
  rw [String.data_append] at h2
  have h3 : 't' = 'g' := List.head_eq_of_cons_eq h2
  exact absurd h3 (by decide)

theorem not_temp_prefix_out (family : String) (o : FPath)
    (hroot : o.head? ≠ some ("temp_" ++ family)) (y : String)
    (hy : "temp_" ++ family ≠ y) : ¬ (tempPath family <+: o ++ [y]) := by
  intro hpre
  have hh := singleton_prefix_head ("temp_" ++ family) (o ++ [y]) hpre
  cases o with
  | nil =>
    have hh2 : some y = some ("temp_" ++ family) := hh
    exact hy (Option.some.inj hh2).symm
  | cons b bs =>
    rw [List.head?_append_of_ne_nil] at hh
    · exact hroot hh
    · simp

/-- C10 counterexample: when the output directory is named exactly like the
scratch directory (`temp_gobiidae` for family `gobiidae`), a fully
successful run deletes the output directories during cleanup, so they do
NOT exist after the run — refuting `these three directories exist on disk
after every run`. -/
theorem main_dirs_deleted_cex :
    (RefSeqDataDownloader.cds_dir ⟨["temp_gobiidae"], "dt"⟩) ∉
      (main ⟨"gobiidae", ["temp_gobiidae"], false, false, "dt"⟩
        ⟨true,
          .success ⟨"\x7b\"record_count\": 5\x7d", some (.obj [("record_count", .num 5)])⟩,
          true, .entries [⟨["s", "cds_from_genomic.fna"], "c"⟩]⟩
        ⟨[], []⟩).fs.dirs := by decide

/-- C10 (amended): constructing the downloader creates the output directory
and both destination subdirectories before the external tool is checked or
invoked, and — provided the output directory does not sit at or below the
scratch directory `temp_{family}` (otherwise cleanup deletes it) — all three
directories exist after every run, including runs that exit with failure
before downloading anything. -/
theorem main_creates_output_dirs (args : Args) (env : Env) (fs0 : FS)
    (hroot : args.output_dir.head? ≠ some ("temp_" ++ args.family)) :
    args.output_dir ∈ (main args env fs0).fs.dirs ∧
    (args.output_dir ++ ["cds_files"]) ∈ (main args env fs0).fs.dirs ∧
    (args.output_dir ++ ["gff_files"]) ∈ (main args env fs0).fs.dirs := by
  obtain ⟨h1, h2, h3⟩ := init_dirs args.output_dir args.datasets_tool fs0
  refine ⟨main_fs_dirs args env fs0 _ ?_ h1, main_fs_dirs args env fs0 _ ?_ h2,
    main_fs_dirs args env fs0 _ ?_ h3⟩
  · exact fun hpre => hroot (singleton_prefix_head _ _ hpre)
  · exact not_temp_prefix_out args.family args.output_dir hroot "cds_files"
      (temp_ne_cds_name args.family)
  · exact not_temp_prefix_out args.family args.output_dir hroot "gff_files"
      (temp_ne_gff_name args.family)

/-- C10 witness: the amended claim at a concrete failing-before-download run
(the tool check fails), where all three directories exist afterwards. -/
theorem main_creates_output_dirs_witness :
    ((["refseq_data"] : FPath).head? ≠ some ("temp_" ++ "gobiidae")) ∧
    ((["refseq_data"] : FPath) ∈
      (main ⟨"gobiidae", ["refseq_data"], false, false, "dt"⟩
        ⟨false, .calledProcessError, true, .corrupt⟩ ⟨[], []⟩).fs.dirs ∧
    ((["refseq_data", "cds_files"] : FPath)) ∈
      (main ⟨"gobiidae", ["refseq_data"], false, false, "dt"⟩
        ⟨false, .calledProcessError, true, .corrupt⟩ ⟨[], []⟩).fs.dirs ∧
    ((["refseq_data", "gff_files"] : FPath)) ∈
      (main ⟨"gobiidae", ["refseq_data"], false, false, "dt"⟩
        ⟨false, .calledProcessError, true, .corrupt⟩ ⟨[], []⟩).fs.dirs) :=
  ⟨by decide,
    main_creates_output_dirs ⟨"gobiidae", ["refseq_data"], false, false, "dt"⟩
      ⟨false, .calledProcessError, true, .corrupt⟩ ⟨[], []⟩ (by decide)⟩

end RefSeqDL
